import Mathlib

/-!
Verification development for the tradingview-websocket market-data broker.

The definitions below are a shallow embedding of the TypeScript sources:

* `normalizeTimeframe`, `configSubscriptions` — src config module
  (`normalizeTimeframe`, `config.subscriptions = parseSubscriptions().map(normalizeTimeframe)`);
* `tvSubscribe`, `tvUnsubscribe`, `tvGetSubscriptions`, `tvStep` —
  `TradingViewClient` in src/src/tradingview.ts (the subscription multiplexer);
* `handleSubscribe`, `handleUnsubscribe`, `handleSubscribeMany`,
  `handleUnsubscribeMany`, `handleClose`, `wsStep` — `WebSocketServer`
  (client session registry and protocol);
* `checkSubscriptionHealth` — `TradingViewHealthMonitor.checkSubscriptionHealth`;
* `runPush`, `jsMaxAttempts` — `pushBar` in src/src/push.ts.

External effects (the upstream driver, the HTTP sink, timers) are modelled by
boolean oracles passed to the corresponding functions: a `wireOk`/`delOk`/`ok`
argument says whether the corresponding driver call threw, and a
`Nat → Bool` function gives the outcome of each HTTP POST attempt.
-/

/-- Inserts an element into a list if absent, appending at the end.
Models JavaScript `Set.prototype.add` (insertion order, idempotent). -/
def insertNew {α : Type} [DecidableEq α] (a : α) (l : List α) : List α :=
  if a ∈ l then l else l ++ [a]

/-- Pointwise update of an option-valued map.  `upd f k v` models
`Map.prototype.set` (with `v = some _`) and `Map.prototype.delete`
(with `v = none`) on a JavaScript `Map` represented as a lookup function. -/
def upd {α β : Type} [DecidableEq α] (f : α → Option β) (k : α) (v : Option β) :
    α → Option β :=
  fun x => if x = k then v else f x

/-- Removes the first occurrence of a character from a character list.
Models JavaScript `String.prototype.replace(pat, '')` with a one-character
string pattern, which replaces only the first occurrence. -/
def removeFirstChar (c : Char) : List Char → List Char
  | [] => []
  | x :: xs => if x = c then xs else x :: removeFirstChar c xs

/-- Splits a character list at every underscore.  Models JavaScript
`String.prototype.split('_')` at the character level: `"".split('_')`
is `[""]`, separators at the ends produce empty segments. -/
def splitChars : List Char → List (List Char)
  | [] => [[]]
  | c :: cs =>
    if c = '_' then [] :: splitChars cs
    else
      match splitChars cs with
      | [] => [[c]]
      | h :: t => (c :: h) :: t

/-- Models JavaScript `key.split('_')` on a string. -/
def jsSplit (s : String) : List String :=
  (splitChars s.toList).map String.mk

/-- Numeric value of a list of decimal digit characters (most significant
first), as used by `parseInt` on its maximal digit prefix. -/
def digitsVal (l : List Char) : Nat :=
  l.foldl (fun acc c => 10 * acc + (c.toNat - '0'.toNat)) 0

/-- Value of the maximal leading run of decimal digits, `none` when the
list does not start with a digit (JavaScript `NaN`). -/
def leadingDigits (l : List Char) : Option Nat :=
  match l.takeWhile Char.isDigit with
  | [] => none
  | ds => some (digitsVal ds)

/-- Models JavaScript `parseInt(s)` (radix 10, no leading whitespace, no
`0x` prefix — the forms that occur in this codebase): an optional sign
followed by the maximal digit prefix; `none` models `NaN`. -/
def jsParseInt (s : String) : Option Int :=
  match s.toList with
  | [] => none
  | c :: rest =>
    if c = '-' then (leadingDigits rest).map (fun n => -(n : Int))
    else if c = '+' then (leadingDigits rest).map (fun n => (n : Int))
    else (leadingDigits (c :: rest)).map (fun n => (n : Int))

/-- Whether a string's last character is `c`; models the
`timeframe.endsWith('m')` / `endsWith('h')` checks. -/
def endsWithChar (s : String) (c : Char) : Bool :=
  decide (s.toList.getLast? = some c)

/-- A logical subscription: `{symbol, timeframe}` (src config module,
`interface Subscription`). -/
structure Subscription where
  symbol : String
  timeframe : String
deriving DecidableEq, Repr

/-- Models `normalizeTimeframe` from the config module:
`if (timeframe.endsWith('m')) timeframe = timeframe.replace('m', ''); else if
(timeframe.endsWith('h')) timeframe = (parseInt(timeframe) * 60).toString();
else if (timeframe === '1d' || timeframe === 'd') timeframe = 'D'; ...`.
JavaScript `replace('m','')` removes only the first occurrence of `'m'`, and
`(NaN * 60).toString()` is the string `"NaN"`. -/
def normalizeTimeframe (sub : Subscription) : Subscription :=
  let tf := sub.timeframe
  let tf' :=
    if endsWithChar tf 'm' then String.mk (removeFirstChar 'm' tf.toList)
    else if endsWithChar tf 'h' then
      match jsParseInt tf with
      | some n => toString (n * 60)
      | none => "NaN"
    else if tf = "1d" ∨ tf = "d" then "D"
    else if tf = "1w" ∨ tf = "w" then "W"
    else if tf = "1M" ∨ tf = "M" then "M"
    else tf
  { sub with timeframe := tf' }

/-- Models the config loader's subscription list:
`subscriptions: parseSubscriptions().map(normalizeTimeframe)` applied to the
already-parsed `SUBSCRIPTIONS` JSON array. -/
def configSubscriptions (raw : List Subscription) : List Subscription :=
  raw.map normalizeTimeframe

/-- Events emitted by the multiplexer (`TradingViewClient extends
EventEmitter`), restricted to those the claims mention. -/
inductive TVEvent : Type where
  | subscribed (sub : Subscription)
  | subscription_error (sub : Subscription)
  | unsubscribed (symbol timeframe : String)
deriving DecidableEq, Repr

/-- State of the subscription multiplexer (`TradingViewClient`):
`connected` and the `client` null-check, the `charts` map keyed by
`symbol_timeframe` (chart handles are opaque; we name them by a counter),
and the `active_subscriptions` gauge. -/
structure TVState where
  connected : Bool
  hasClient : Bool
  charts : List (String × Nat)
  nextChart : Nat
  gauge : Nat
deriving DecidableEq, Repr

/-- Initial multiplexer state: `connected = false`, no client, empty map. -/
def tvInit : TVState :=
  { connected := false, hasClient := false, charts := [], nextChart := 0, gauge := 0 }

/-- The map key of a subscription: the template literal
so the symbol and timeframe are joined by an underscore. -/
def tvKey (sub : Subscription) : String :=
  sub.symbol ++ "_" ++ sub.timeframe

/-- Keys currently in the `charts` map. -/
def chartKeys (s : TVState) : List String :=
  s.charts.map Prod.fst

/-- Models `TradingViewClient.subscribe` (src/src/tradingview.ts lines 98-187).
If the client is not connected the method throws (`Except.error`); if the key
is present it returns `true` with no effect; otherwise the chart is created
and wired — `wireOk = false` means one of the wiring steps (chart creation,
callback registration, `setMarket`) threw, which the catch block turns into
`false` plus a `subscription_error` event, with the map unchanged. -/
def tvSubscribe (wireOk : Bool) (sub : Subscription) (s : TVState) :
    Except Unit (Bool × TVState × List TVEvent) :=
  if s.connected = false ∨ s.hasClient = false then
    Except.error ()
  else
    let key := tvKey sub
    if key ∈ chartKeys s then
      Except.ok (true, s, [])
    else if wireOk then
      let charts' := s.charts ++ [(key, s.nextChart)]
      Except.ok (true,
        { s with charts := charts', nextChart := s.nextChart + 1,
                 gauge := charts'.length },
        [TVEvent.subscribed sub])
    else
      Except.ok (false, s, [TVEvent.subscription_error sub])

/-- Models `TradingViewClient.unsubscribe` (src/src/tradingview.ts lines
190-221).  `delOk = false` means `chart.delete()` threw: the catch block logs
and returns `false`, so the `charts.delete(key)` line, the gauge update and
the `unsubscribed` emit — all of which come after `chart.delete()` inside the
`try` — are skipped. -/
def tvUnsubscribe (delOk : Bool) (symbol timeframe : String) (s : TVState) :
    Bool × TVState × List TVEvent :=
  let key := symbol ++ "_" ++ timeframe
  if key ∈ chartKeys s then
    if delOk then
      let charts' := s.charts.filter (fun p => p.1 ≠ key)
      (true, { s with charts := charts', gauge := charts'.length },
       [TVEvent.unsubscribed symbol timeframe])
    else
      (false, s, [])
  else
    (false, s, [])

/-- Models `TradingViewClient.getSubscriptions` (src/src/tradingview.ts lines
224-229): each stored key is split at underscores and destructured into its
first two segments.  Index 1 of the split exists for every key containing an
underscore (every stored key does, being built as `symbol_timeframe`);
the `getD` defaults are therefore never observed. -/
def tvGetSubscriptions (s : TVState) : List Subscription :=
  s.charts.map (fun p =>
    { symbol := (jsSplit p.1).getD 0 "", timeframe := (jsSplit p.1).getD 1 "" })

/-- Multiplexer-level operations, each tagged with the oracle describing the
outcome of the driver calls it makes. -/
inductive TVOp : Type where
  | connect (ok : Bool)
  | subscribe (wireOk : Bool) (sub : Subscription)
  | unsubscribe (delOk : Bool) (symbol timeframe : String)
  | close
  | resetAll
deriving DecidableEq, Repr

/-- One multiplexer operation applied to the state.  `connect` with a failing
driver leaves the state unchanged (the catch block only logs and schedules a
reconnect); a `subscribe` that throws propagates to the caller with the state
unmutated; `close` and `resetAllSubscriptions` clear the map and zero the
gauge, `close` additionally dropping the connection flag. -/
def tvStep : TVOp → TVState → TVState
  | TVOp.connect ok, s =>
    if ok then { s with connected := true, hasClient := true } else s
  | TVOp.subscribe wireOk sub, s =>
    match tvSubscribe wireOk sub s with
    | Except.ok (_, s', _) => s'
    | Except.error _ => s
  | TVOp.unsubscribe delOk sym tf, s => (tvUnsubscribe delOk sym tf s).2.1
  | TVOp.close, s => { s with charts := [], gauge := 0, connected := false }
  | TVOp.resetAll, s => { s with charts := [], gauge := 0 }

/-- Runs a list of multiplexer operations from the initial state. -/
def tvRun (ops : List TVOp) : TVState :=
  ops.foldl (fun s op => tvStep op s) tvInit

deriving instance DecidableEq for Except

/-- Events the `WebSocketServer` emits towards the multiplexer: `main.ts`
wires `wsServer.on('subscribe', ...)` to `tvClient.subscribe` and
`wsServer.on('unsubscribe', ...)` to `tvClient.unsubscribe`. -/
inductive WSEvent : Type where
  | subEv (sub : Subscription)
  | unsubEv (symbol timeframe : String)
deriving DecidableEq, Repr

/-- State of the `WebSocketServer`: the connected-client set, the
`activeSubscriptions` map (we track its key set), and the two per-client
tracking maps `clientSubscriptions : Map<WebSocket, Set<string>>` and
`subscriptionClients : Map<string, Set<WebSocket>>`.  Clients are named by
natural numbers standing for the distinct `ws` objects. -/
structure WSState where
  clients : List Nat
  active : List String
  clientSubs : Nat → Option (List String)
  subClients : String → Option (List Nat)

/-- Empty server state. -/
def wsInit : WSState :=
  { clients := [], active := [], clientSubs := fun _ => none,
    subClients := fun _ => none }

/-- The interest set of a key: the `subscriptionClients` entry, or empty when
the entry is absent. -/
def interest (s : WSState) (key : String) : List Nat :=
  (s.subClients key).getD []

/-- Models `handleConnection` state changes (part_004 lines 659-663): the
client is added and its `clientSubscriptions` entry is created empty. -/
def handleConnection (c : Nat) (s : WSState) : WSState :=
  { s with clients := insertNew c s.clients,
           clientSubs := upd s.clientSubs c (some []) }

/-- Models `handleSubscribe` (part_004 lines 752-803).  A missing field
(`!data.symbol || !data.timeframe`, so also the empty string) is a protocol
error with no state change; a key already in the client's set is confirmed
with no change; otherwise the key is added to the client's set, the client to
the key's listener set, and — only when the listener entry did not exist —
the key enters `activeSubscriptions` and a `subscribe` event is emitted with
the request's symbol and timeframe. -/
def handleSubscribe (c : Nat) (sym tf : String) (s : WSState) :
    WSState × List WSEvent :=
  if sym = "" ∨ tf = "" then (s, [])
  else
    let key := sym ++ "_" ++ tf
    let cs := (s.clientSubs c).getD []
    if key ∈ cs then (s, [])
    else
      let s1 := { s with clientSubs := upd s.clientSubs c (some (insertNew key cs)) }
      match s.subClients key with
      | none =>
        ({ s1 with subClients := upd s1.subClients key (some [c]),
                   active := insertNew key s1.active },
         [WSEvent.subEv ⟨sym, tf⟩])
      | some cl =>
        ({ s1 with subClients := upd s1.subClients key (some (insertNew c cl)) },
         [])

/-- Models `handleUnsubscribe` (part_004 lines 806-849).  A key not in the
client's set is a failure response with no change; otherwise the key leaves
the client's set and the client leaves the key's listener set, and when that
set empties both tracking entries are deleted and an `unsubscribe` event with
the request's symbol and timeframe is emitted. -/
def handleUnsubscribe (c : Nat) (sym tf : String) (s : WSState) :
    WSState × List WSEvent :=
  if sym = "" ∨ tf = "" then (s, [])
  else
    let key := sym ++ "_" ++ tf
    match s.clientSubs c with
    | none => (s, [])
    | some cs =>
      if key ∈ cs then
        let s1 := { s with clientSubs := upd s.clientSubs c (some (cs.erase key)) }
        match s1.subClients key with
        | none => (s1, [])
        | some cl =>
          let cl' := cl.erase c
          if cl' = [] then
            ({ s1 with subClients := upd s1.subClients key none,
                       active := s1.active.erase key },
             [WSEvent.unsubEv sym tf])
          else
            ({ s1 with subClients := upd s1.subClients key (some cl') }, [])
      else (s, [])

/-- One pair of the bulk subscribe loop (part_004 lines 873-885): the pair is
checked against `activeSubscriptions` only — the per-client maps are not
consulted or updated. -/
def subManyStep (acc : WSState × List WSEvent) (p : String × String) :
    WSState × List WSEvent :=
  if p.1 = "" ∨ p.2 = "" then acc
  else
    let key := p.1 ++ "_" ++ p.2
    if key ∈ acc.1.active then acc
    else ({ acc.1 with active := insertNew key acc.1.active },
          acc.2 ++ [WSEvent.subEv ⟨p.1, p.2⟩])

/-- Models `handleSubscribeMany` (part_004 lines 864-894).  Each pair is
processed against `activeSubscriptions` directly: the per-client maps
`clientSubscriptions` and `subscriptionClients` are not touched. -/
def handleSubscribeMany (pairs : List (String × String)) (s : WSState) :
    WSState × List WSEvent :=
  if pairs = [] then (s, [])
  else pairs.foldl subManyStep (s, [])

/-- One pair of the bulk unsubscribe loop (part_004 lines 906-917). -/
def unsubManyStep (acc : WSState × List WSEvent) (p : String × String) :
    WSState × List WSEvent :=
  if p.1 = "" ∨ p.2 = "" then acc
  else
    let key := p.1 ++ "_" ++ p.2
    if key ∈ acc.1.active then
      ({ acc.1 with active := acc.1.active.erase key },
       acc.2 ++ [WSEvent.unsubEv p.1 p.2])
    else acc

/-- Models `handleUnsubscribeMany` (part_004 lines 897-926); like the bulk
subscribe it manipulates `activeSubscriptions` only. -/
def handleUnsubscribeMany (pairs : List (String × String)) (s : WSState) :
    WSState × List WSEvent :=
  if pairs = [] then (s, [])
  else pairs.foldl unsubManyStep (s, [])

/-- First segment of `key.split('_')`, as destructured in the close handler
and in `getSubscriptions`. -/
def splitSym (key : String) : String :=
  (jsSplit key).getD 0 ""

/-- Second segment of `key.split('_')` (defined for every key containing an
underscore, which every stored key does). -/
def splitTf (key : String) : String :=
  (jsSplit key).getD 1 ""

/-- One iteration of the close handler's loop body (part_004 lines 693-705)
for a single key of the disconnecting client: the client is removed from the
key's listener set, and when the set empties the tracking entry and the
`activeSubscriptions` entry are deleted and an `unsubscribe` event is emitted
with the key split at underscores. -/
def closeStepKey (c : Nat) (acc : WSState × List WSEvent) (key : String) :
    WSState × List WSEvent :=
  match acc.1.subClients key with
  | none => acc
  | some cl =>
    let cl' := cl.erase c
    if cl' = [] then
      ({ acc.1 with subClients := upd acc.1.subClients key none,
                    active := acc.1.active.erase key },
       acc.2 ++ [WSEvent.unsubEv (splitSym key) (splitTf key)])
    else
      ({ acc.1 with subClients := upd acc.1.subClients key (some cl') }, acc.2)

/-- Models the `ws.on('close', ...)` handler (part_004 lines 687-708): the
client leaves the client set, every key it was subscribed to is processed by
`closeStepKey`, and its `clientSubscriptions` entry is deleted. -/
def handleClose (c : Nat) (s : WSState) : WSState × List WSEvent :=
  let s0 := { s with clients := s.clients.erase c }
  match s0.clientSubs c with
  | none => (s0, [])
  | some keys =>
    let r := keys.foldl (closeStepKey c) (s0, [])
    ({ r.1 with clientSubs := upd r.1.clientSubs c none }, r.2)

/-- Client-protocol operations driving the server. -/
inductive WSOp : Type where
  | connect (c : Nat)
  | sub (c : Nat) (symbol timeframe : String)
  | unsub (c : Nat) (symbol timeframe : String)
  | subMany (c : Nat) (pairs : List (String × String))
  | unsubMany (c : Nat) (pairs : List (String × String))
  | close (c : Nat)
deriving DecidableEq, Repr

/-- One protocol operation applied to the server state, returning the events
emitted towards the multiplexer. -/
def wsStep : WSOp → WSState → WSState × List WSEvent
  | WSOp.connect c, s => (handleConnection c s, [])
  | WSOp.sub c sym tf, s => handleSubscribe c sym tf s
  | WSOp.unsub c sym tf, s => handleUnsubscribe c sym tf s
  | WSOp.subMany _ pairs, s => handleSubscribeMany pairs s
  | WSOp.unsubMany _ pairs, s => handleUnsubscribeMany pairs s
  | WSOp.close c, s => handleClose c s

/-- Runs a list of protocol operations from the empty server state,
discarding the emitted events. -/
def wsRun (ops : List WSOp) : WSState :=
  ops.foldl (fun s op => (wsStep op s).1) wsInit

/-- A `connect` in the code corresponds to a fresh `ws` object, so it can
only name a client with no `clientSubscriptions` entry and not currently in
the client set; all other operations are message or close events, which the
transport can deliver in any order. -/
def wfCond : WSOp → WSState → Bool
  | WSOp.connect c, s => decide (s.clientSubs c = none) && decide (c ∉ s.clients)
  | _, _ => true

/-- Well-formedness of an operation list from a state: every `connect` names
a fresh client. -/
def wsWF : WSState → List WSOp → Bool
  | _, [] => true
  | s, op :: ops => wfCond op s && wsWF (wsStep op s).1 ops

/-- Whether an operation is one of the bulk handlers, which bypass the
per-client tracking maps. -/
def isBulk : WSOp → Bool
  | WSOp.subMany _ _ => true
  | WSOp.unsubMany _ _ => true
  | _ => false

/-- Association-list update modelling `Map.prototype.set` on the health
monitor's maps: replace in place when the key exists, append otherwise. -/
def setA {α : Type} (l : List (String × α)) (k : String) (v : α) :
    List (String × α) :=
  if (l.lookup k).isSome then
    l.map (fun p => if p.1 = k then (k, v) else p)
  else l ++ [(k, v)]

/-- Models `timeframeToMs` (health module): `'D'`, `'W'`, `'M'` map to fixed
millisecond counts and anything else goes through `parseInt(tf) * 60 * 1000`;
`none` models the `NaN` produced by a non-numeric timeframe. -/
def timeframeToMs (tf : String) : Option Int :=
  if tf = "D" then some 86400000
  else if tf = "W" then some 604800000
  else if tf = "M" then some 2592000000
  else (jsParseInt tf).map (fun n => n * 60000)

/-- Health monitor configuration (`HealthMonitorConfig`), restricted to the
fields the scan reads.  The stale-threshold multiplier is a float in the
source with integer default 3; it is modelled as an integer. -/
structure HMConfig where
  staleThresholdMultiplier : Int
  autoRecoveryEnabled : Bool
  maxRecoveryAttempts : Nat
  fullReconnectThreshold : Nat
  fullReconnectCooldownMs : Int
deriving DecidableEq, Repr

/-- The `DEFAULT_HEALTH_CONFIG` values from the config module. -/
def defaultHealthConfig : HMConfig :=
  { staleThresholdMultiplier := 3, autoRecoveryEnabled := true,
    maxRecoveryAttempts := 3, fullReconnectThreshold := 3,
    fullReconnectCooldownMs := 600000 }

/-- Mutable state of `TradingViewHealthMonitor`: `lastBarTimestamps`,
`recoveryAttempts` and `lastFullReconnectTime` (milliseconds, as `Int`). -/
structure HMState where
  lastBar : List (String × Int)
  recAttempts : List (String × Nat)
  lastFullReconnectTime : Int
deriving DecidableEq, Repr

/-- One iteration of the scan's first loop (part_003 lines 300-328) over a
subscription.  The source guard is `if (!lastTimestamp)`, which fires both
when the key has no entry and when the stored timestamp is the falsy number
0: in either case the key is (re)initialized to `now` and skipped.
Otherwise the key is stale when `now - lastTimestamp > timeframeMs ×
multiplier` (false when `timeframeMs` is `NaN`, as every comparison with
`NaN` is false in JavaScript). -/
def scanKey (cfg : HMConfig) (now : Int)
    (acc : List (String × Int) × List Subscription) (sub : Subscription) :
    List (String × Int) × List Subscription :=
  let key := sub.symbol ++ "_" ++ sub.timeframe
  match acc.1.lookup key with
  | none => (setA acc.1 key now, acc.2)
  | some ts =>
    if ts = 0 then (setA acc.1 key now, acc.2)
    else
      let stale :=
        match timeframeToMs sub.timeframe with
        | none => false
        | some ems => decide (now - ts > ems * cfg.staleThresholdMultiplier)
      if stale then (acc.1, acc.2 ++ [sub]) else acc

/-- The first loop of `checkSubscriptionHealth`: final `lastBarTimestamps`
map and the stale list, in subscription order. -/
def healthPhase1 (cfg : HMConfig) (now : Int) (st : HMState)
    (subs : List Subscription) : List (String × Int) × List Subscription :=
  subs.foldl (scanKey cfg now) (st.lastBar, [])

/-- Models `attemptRecovery` (part_003 lines 379-431) as far as monitor state
goes: at the attempt cap the key is skipped (`max_recovery_attempts`),
otherwise the counter is incremented and, when the resubscribe succeeds
(oracle `recOk`), the key's timestamp is reset to `now`. -/
def attemptRecovery (cfg : HMConfig) (now : Int) (recOk : String → Bool)
    (st : HMState) (sub : Subscription) : HMState :=
  let key := sub.symbol ++ "_" ++ sub.timeframe
  let attempts := (st.recAttempts.lookup key).getD 0
  if cfg.maxRecoveryAttempts ≤ attempts then st
  else
    let st1 := { st with recAttempts := setA st.recAttempts key (attempts + 1) }
    if recOk key then { st1 with lastBar := setA st1.lastBar key now } else st1

/-- Result of one health-scan cycle: the monitor state, the
`stale_subscriptions` gauge, whether `Multiplexer.fullReconnect` was called,
and the keys individually passed to `attemptRecovery`. -/
structure ScanResult where
  state : HMState
  staleGauge : Nat
  fullReconnectCalled : Bool
  recoveredKeys : List String
deriving DecidableEq, Repr

/-- Models `checkSubscriptionHealth` (part_003 lines 285-374) together with
`performFullReconnect` (lines 436-471).  `ok` is the value returned by
`tvClient.fullReconnect()`; `recOk` gives the per-key outcome of the
resubscribe inside `attemptRecovery`.  On the full-reconnect branch the
timestamps are all reset to `now` and the attempt counters cleared only when
`fullReconnect` returned `true`; `lastFullReconnectTime = now` is set
unconditionally after the call, and the individual-recovery loop is not
entered. -/
def checkSubscriptionHealth (cfg : HMConfig) (now : Int)
    (subs : List Subscription) (ok : Bool) (recOk : String → Bool)
    (st : HMState) : ScanResult :=
  if subs = [] then
    { state := st, staleGauge := 0, fullReconnectCalled := false,
      recoveredKeys := [] }
  else
    let p := healthPhase1 cfg now st subs
    let stale := p.2
    let staleCount := stale.length
    if 0 < staleCount then
      let shouldFull := cfg.autoRecoveryEnabled &&
        decide (cfg.fullReconnectThreshold ≤ staleCount) &&
        decide (cfg.fullReconnectCooldownMs < now - st.lastFullReconnectTime)
      if shouldFull then
        let st1 :=
          if ok then
            { lastBar := p.1.map (fun q => (q.1, now)), recAttempts := [],
              lastFullReconnectTime := st.lastFullReconnectTime }
          else { st with lastBar := p.1 }
        { state := { st1 with lastFullReconnectTime := now },
          staleGauge := staleCount, fullReconnectCalled := true,
          recoveredKeys := [] }
      else if cfg.autoRecoveryEnabled then
        { state := stale.foldl (attemptRecovery cfg now recOk)
                     { st with lastBar := p.1 },
          staleGauge := staleCount, fullReconnectCalled := false,
          recoveredKeys := stale.map (fun sub => sub.symbol ++ "_" ++ sub.timeframe) }
      else
        { state := { st with lastBar := p.1 }, staleGauge := staleCount,
          fullReconnectCalled := false, recoveredKeys := [] }
    else
      { state := { st with lastBar := p.1 }, staleGauge := 0,
        fullReconnectCalled := false, recoveredKeys := [] }

/-- The retry loop of `pushBar` (src/src/push.ts lines 46-60): `res n` is the
outcome of the POST at `attempt = n`; the result is the number of POSTs
performed and whether one succeeded (success is what increments
`bars_pushed_total`, exactly once, before the loop returns). -/
def runPush (res : Nat → Bool) : Nat → Nat → Nat × Bool
  | 0, _ => (0, false)
  | fuel + 1, attempt =>
    if res attempt then (1, true)
    else
      let r := runPush res fuel (attempt + 1)
      (r.1 + 1, r.2)

/-- Models the `maxAttempts` computation of `pushBar` (src/src/push.ts line
44): `1 + (config as any).retry?.httpRetry?.attempts || 3`.  JavaScript `+`
binds tighter than `||`, so this is `(1 + attempts) || 3`: with `attempts`
undefined the sum is `NaN`, which is falsy, giving 3. -/
def jsMaxAttempts (attempts : Option Nat) : Nat :=
  match attempts with
  | none => 3
  | some a => if 1 + a = 0 then 3 else 1 + a

/-- The `Config` interface of this codebase has no `retry` field, so
`(config as any).retry?.httpRetry?.attempts` is `undefined` in every run. -/
def cfgRetryAttempts : Option Nat := none

/-- `pushBar`'s HTTP phase under the given per-attempt outcomes: POST count
and whether `bars_pushed_total` was incremented. -/
def pushPosts (res : Nat → Bool) : Nat × Bool :=
  runPush res (jsMaxAttempts cfgRetryAttempts) 0

/-- Reachability invariant of the multiplexer: a non-empty `charts` map
implies the client is connected — `subscribe` is the only way to populate
the map and requires connection, while `close` clears the map when dropping
the connection. -/
def TVConnInv (s : TVState) : Prop :=
  s.charts ≠ [] → s.connected = true ∧ s.hasClient = true

/-- The timeframe component of the normalizer depends only on the input
timeframe; `normTF` names that component. -/
def normTF (tf : String) : String :=
  (normalizeTimeframe ⟨"", tf⟩).timeframe

/-- Every `subscriptionClients` entry is non-empty (entries are deleted the
moment their set empties). -/
def entriesNE (s : WSState) : Prop :=
  ∀ key l, s.subClients key = some l → l ≠ []

/-- Invariant I3: a client is listed in `subscriptionClients[key]` iff the
key is in that client's `clientSubscriptions` set. -/
def symInv (s : WSState) : Prop :=
  ∀ c key, c ∈ interest s key ↔ key ∈ (s.clientSubs c).getD []

/-- Every per-client key set is duplicate-free (JavaScript `Set`). -/
def nodupC (s : WSState) : Prop :=
  ∀ c, ((s.clientSubs c).getD []).Nodup

/-- Every interest set is duplicate-free (JavaScript `Set`). -/
def nodupS (s : WSState) : Prop :=
  ∀ key, (interest s key).Nodup

/-- Invariant I1 without pinning: a key is in `activeSubscriptions` iff its
interest set is non-empty.  (The pin API `addSubscription` is never invoked
in this codebase, so the pinned set is empty.) -/
def activeIff (s : WSState) : Prop :=
  ∀ key, key ∈ s.active ↔ interest s key ≠ []

/-- The per-client tracking invariants. -/
structure SymOk (s : WSState) : Prop where
  ne : entriesNE s
  sym : symInv s
  ndC : nodupC s
  ndS : nodupS s

/-- The full invariant: tracking invariants plus I1 and a duplicate-free
`activeSubscriptions` key set. -/
structure FullOk (s : WSState) : Prop where
  so : SymOk s
  act : activeIff s
  ndA : s.active.Nodup

/-- The element just inserted is a member. -/
theorem mem_insertNew_self {α : Type} [DecidableEq α] (a : α) (l : List α) :
    a ∈ insertNew a l := by
  unfold insertNew
  split
  · assumption
  · exact List.mem_append_right _ (List.mem_singleton_self a)

/-- Membership in an insertion. -/
theorem mem_insertNew_iff {α : Type} [DecidableEq α] (a b : α) (l : List α) :
    b ∈ insertNew a l ↔ b ∈ l ∨ b = a := by
  unfold insertNew
  split
  · rename_i h
    constructor
    · exact Or.inl
    · rintro (hb | rfl)
      · exact hb
      · exact h
  · simp [List.mem_append]

/-- Insertion keeps lists duplicate-free. -/
theorem insertNew_nodup {α : Type} [DecidableEq α] (a : α) (l : List α)
    (h : l.Nodup) : (insertNew a l).Nodup := by
  unfold insertNew
  split
  · exact h
  · rename_i ha
    simpa [List.nodup_append] using ⟨h, fun hb => ha hb⟩

/-- Insertion never yields the empty list. -/
theorem insertNew_ne_nil {α : Type} [DecidableEq α] (a : α) (l : List α) :
    insertNew a l ≠ [] := by
  unfold insertNew
  split
  · rename_i h
    intro e
    rw [e] at h
    cases h
  · simp

/-- A list whose erasure at `a` is empty was empty or the singleton `[a]`. -/
theorem erase_eq_nil {α : Type} [DecidableEq α] {l : List α} {a : α}
    (h : l.erase a = []) : l = [] ∨ l = [a] := by
  cases l with
  | nil => exact Or.inl rfl
  | cons x xs =>
    by_cases hx : x = a
    · subst hx
      rw [List.erase_cons_head] at h
      exact Or.inr (by rw [h])
    · rw [List.erase_cons_tail (by simpa using hx)] at h
      cases h

/-- Reading an updated map at the updated key. -/
theorem upd_self {α β : Type} [DecidableEq α] (f : α → Option β) (k : α)
    (v : Option β) : upd f k v k = v := by
  simp [upd]

/-- Reading an updated map away from the updated key. -/
theorem upd_other {α β : Type} [DecidableEq α] (f : α → Option β) (k : α)
    (v : Option β) (x : α) (h : x ≠ k) : upd f k v x = f x := by
  simp [upd, h]

/-- Every multiplexer operation preserves `TVConnInv`. -/
theorem tvStep_preserves_conn (op : TVOp) (s : TVState) (h : TVConnInv s) :
    TVConnInv (tvStep op s) := by
  cases op with
  | connect ok =>
    cases ok with
    | true => intro _; exact ⟨rfl, rfl⟩
    | false => exact h
  | subscribe wireOk sub =>
    unfold tvStep tvSubscribe
    by_cases hc : s.connected = false ∨ s.hasClient = false
    · simp only [if_pos hc]
      exact h
    · simp only [if_neg hc]
      push_neg at hc
      obtain ⟨h1, h2⟩ := hc
      have h1' : s.connected = true := by
        cases hb : s.connected
        · exact absurd hb h1
        · rfl
      have h2' : s.hasClient = true := by
        cases hb : s.hasClient
        · exact absurd hb h2
        · rfl
      by_cases hk : tvKey sub ∈ chartKeys s
      · simp only [if_pos hk]
        exact h
      · simp only [if_neg hk]
        cases wireOk with
        | true => intro _; exact ⟨h1', h2'⟩
        | false => exact h
  | unsubscribe delOk sym tf =>
    unfold tvStep tvUnsubscribe
    by_cases hk : sym ++ "_" ++ tf ∈ chartKeys s
    · simp only [if_pos hk]
      cases delOk with
      | true =>
        intro hne
        apply h
        intro he
        simp [chartKeys, he] at hk
      | false => exact h
    · simp only [if_neg hk]
      exact h
  | close => intro hne; exact absurd rfl hne
  | resetAll => intro hne; exact absurd rfl hne

/-- `TVConnInv` holds in every state reachable from `tvInit`. -/
theorem tvRun_conn (ops : List TVOp) : TVConnInv (tvRun ops) := by
  have main : ∀ (l : List TVOp) (s : TVState), TVConnInv s →
      TVConnInv (l.foldl (fun s op => tvStep op s) s) := by
    intro l
    induction l with
    | nil => intro s hs; exact hs
    | cons op l ih =>
      intro s hs
      exact ih _ (tvStep_preserves_conn op s hs)
  exact main ops tvInit (fun hne => absurd rfl hne)

/-- C9.  `subscribe` is idempotent on the multiplexer state: in any reachable
state whose `charts` map already holds the key, `subscribe` returns `true`
with the state unchanged and no event emitted, regardless of how the driver
would have behaved (`wireOk`). -/
theorem C9_subscribe_idempotent (ops : List TVOp) (wireOk : Bool)
    (sub : Subscription) (h : tvKey sub ∈ chartKeys (tvRun ops)) :
    tvSubscribe wireOk sub (tvRun ops) = Except.ok (true, tvRun ops, []) := by
  have hne : (tvRun ops).charts ≠ [] := by
    intro he
    simp [chartKeys, he] at h
  obtain ⟨h1, h2⟩ := tvRun_conn ops hne
  unfold tvSubscribe
  rw [if_neg (by simp [h1, h2]), if_pos h]

/-- Witness for C9 at a concrete reachable state holding the key `A_1`. -/
theorem C9_witness :
    tvKey ⟨"A", "1"⟩ ∈
      chartKeys (tvRun [TVOp.connect true, TVOp.subscribe true ⟨"A", "1"⟩]) ∧
    tvSubscribe false ⟨"A", "1"⟩
        (tvRun [TVOp.connect true, TVOp.subscribe true ⟨"A", "1"⟩]) =
      Except.ok (true, tvRun [TVOp.connect true, TVOp.subscribe true ⟨"A", "1"⟩], []) :=
  ⟨by decide,
   C9_subscribe_idempotent [TVOp.connect true, TVOp.subscribe true ⟨"A", "1"⟩]
     false ⟨"A", "1"⟩ (by decide)⟩

/-- C1 (amended).  `subscribe` has two distinct failure modes: when the
driver is not connected (or the client object is missing) the call throws —
it neither returns `false` nor emits `subscription_error`; only when the
client is connected and a wiring step throws does the call return `false`
and emit `subscription_error`, leaving the map unchanged. -/
theorem C1_subscribe_failure_modes (s : TVState) (sub : Subscription)
    (wireOk : Bool) :
    (s.connected = false ∨ s.hasClient = false →
      tvSubscribe wireOk sub s = Except.error ()) ∧
    (s.connected = true → s.hasClient = true → tvKey sub ∉ chartKeys s →
      tvSubscribe false sub s =
        Except.ok (false, s, [TVEvent.subscription_error sub])) := by
  constructor
  · intro h
    unfold tvSubscribe
    rw [if_pos h]
  · intro h1 h2 h3
    unfold tvSubscribe
    rw [if_neg (by simp [h1, h2]), if_neg h3]
    simp

/-- Witness for C1: the initial (disconnected) state throws even with a
healthy driver, and a connected state with a throwing wiring step returns
`false` plus `subscription_error`. -/
theorem C1_witness :
    tvSubscribe true ⟨"A", "1"⟩ tvInit = Except.error () ∧
    tvSubscribe false ⟨"A", "1"⟩ (tvRun [TVOp.connect true]) =
      Except.ok (false, tvRun [TVOp.connect true],
        [TVEvent.subscription_error ⟨"A", "1"⟩]) :=
  ⟨(C1_subscribe_failure_modes tvInit ⟨"A", "1"⟩ true).1 (Or.inl rfl),
   (C1_subscribe_failure_modes (tvRun [TVOp.connect true]) ⟨"A", "1"⟩ false).2
     (by decide) (by decide) (by decide)⟩

/-- Counterexample to C1 as stated: a `subscribe` call in the disconnected
initial state aborts by throwing (`Except.error`) — in particular it is not
the `false` return with a `subscription_error` event the claim promises. -/
theorem C1_counterexample :
    tvSubscribe true ⟨"A", "1"⟩ tvInit = Except.error () ∧
    tvSubscribe true ⟨"A", "1"⟩ tvInit ≠
      Except.ok (false, tvInit, [TVEvent.subscription_error ⟨"A", "1"⟩]) := by
  decide

/-- C2 (amended).  When `chart.delete()` throws, `unsubscribe` logs, returns
`false` and leaves the state untouched — the record is not removed, the gauge
is not decremented and no `unsubscribed` event fires (all of these sit after
`chart.delete()` inside the `try`).  Removal, the gauge update and the
event happen exactly when teardown does not throw. -/
theorem C2_unsubscribe_teardown (s : TVState) (sym tf : String) :
    tvUnsubscribe false sym tf s = (false, s, []) ∧
    (sym ++ "_" ++ tf ∈ chartKeys s →
      (tvUnsubscribe true sym tf s).1 = true ∧
      sym ++ "_" ++ tf ∉ chartKeys (tvUnsubscribe true sym tf s).2.1 ∧
      (tvUnsubscribe true sym tf s).2.2 = [TVEvent.unsubscribed sym tf]) := by
  constructor
  · simp [tvUnsubscribe]
  · intro h
    unfold tvUnsubscribe
    rw [if_pos h]
    refine ⟨rfl, ?_, rfl⟩
    simp [chartKeys, List.mem_filter]

/-- Witness for C2 at a concrete state holding the key `A_1`. -/
theorem C2_witness :
    ("A" ++ "_" ++ "1") ∈
      chartKeys (tvRun [TVOp.connect true, TVOp.subscribe true ⟨"A", "1"⟩]) ∧
    ("A" ++ "_" ++ "1") ∉
      chartKeys ((tvUnsubscribe true "A" "1"
        (tvRun [TVOp.connect true, TVOp.subscribe true ⟨"A", "1"⟩])).2.1) :=
  ⟨by decide,
   ((C2_unsubscribe_teardown
       (tvRun [TVOp.connect true, TVOp.subscribe true ⟨"A", "1"⟩]) "A" "1").2
     (by decide)).2.1⟩

/-- Counterexample to C2 as stated: with a throwing teardown the record is
still in the map afterwards, the call returning `false` with no event —
removal is not unconditional. -/
theorem C2_counterexample :
    tvUnsubscribe false "A" "1"
        (tvRun [TVOp.connect true, TVOp.subscribe true ⟨"A", "1"⟩]) =
      (false, tvRun [TVOp.connect true, TVOp.subscribe true ⟨"A", "1"⟩], []) ∧
    ("A" ++ "_" ++ "1") ∈
      chartKeys ((tvUnsubscribe false "A" "1"
        (tvRun [TVOp.connect true, TVOp.subscribe true ⟨"A", "1"⟩])).2.1) := by
  decide

/-- C4 (amended).  On a scan cycle with a non-empty stale set reaching the
threshold, an elapsed cooldown and auto-recovery enabled, the monitor calls
`Multiplexer.fullReconnect`, sets `lastFullReconnectTime` to `now`
unconditionally, performs no individual per-key recovery — and resets every
`lastBarTimestamps` entry to `now` and clears `recoveryAttempts` only when
`fullReconnect` reported success. -/
theorem C4_full_reconnect_cycle (cfg : HMConfig) (now : Int)
    (subs : List Subscription) (ok : Bool) (recOk : String → Bool) (st : HMState)
    (hauto : cfg.autoRecoveryEnabled = true)
    (hth : 1 ≤ cfg.fullReconnectThreshold)
    (hstale : cfg.fullReconnectThreshold ≤ (healthPhase1 cfg now st subs).2.length)
    (hcool : cfg.fullReconnectCooldownMs < now - st.lastFullReconnectTime) :
    (checkSubscriptionHealth cfg now subs ok recOk st).fullReconnectCalled = true ∧
    (checkSubscriptionHealth cfg now subs ok recOk st).state.lastFullReconnectTime = now ∧
    (checkSubscriptionHealth cfg now subs ok recOk st).recoveredKeys = [] ∧
    (ok = true →
      (∀ q ∈ (checkSubscriptionHealth cfg now subs ok recOk st).state.lastBar,
        q.2 = now) ∧
      (checkSubscriptionHealth cfg now subs ok recOk st).state.recAttempts = []) := by
  have hsubs : ¬subs = [] := by
    intro e
    subst e
    have hlen : (healthPhase1 cfg now st ([] : List Subscription)).2.length = 0 := rfl
    omega
  have hpos : 0 < (healthPhase1 cfg now st subs).2.length := by omega
  have hsf : (cfg.autoRecoveryEnabled &&
      decide (cfg.fullReconnectThreshold ≤ (healthPhase1 cfg now st subs).2.length) &&
      decide (cfg.fullReconnectCooldownMs < now - st.lastFullReconnectTime)) = true := by
    rw [hauto]
    simp [hstale, hcool]
  have hchar : checkSubscriptionHealth cfg now subs ok recOk st =
      { state :=
          { lastBar := if ok = true then
              (healthPhase1 cfg now st subs).1.map (fun q => (q.1, now))
            else (healthPhase1 cfg now st subs).1,
            recAttempts := if ok = true then [] else st.recAttempts,
            lastFullReconnectTime := now },
        staleGauge := (healthPhase1 cfg now st subs).2.length,
        fullReconnectCalled := true, recoveredKeys := [] } := by
    cases ok with
    | true =>
      unfold checkSubscriptionHealth
      rw [if_neg hsubs]
      simp only [if_pos hpos, if_pos hsf]
      simp
    | false =>
      unfold checkSubscriptionHealth
      rw [if_neg hsubs]
      simp only [if_pos hpos, if_pos hsf]
      simp
  rw [hchar]
  refine ⟨rfl, rfl, rfl, ?_⟩
  intro hok
  subst hok
  constructor
  · intro q hq
    rw [if_pos rfl, List.mem_map] at hq
    obtain ⟨r, _, he⟩ := hq
    rw [← he]
  · simp

/-- Witness for C4: three minute-keys silent since timestamp 1 at `now` 700 000
ms, threshold 3, cooldown elapsed, `fullReconnect` succeeding. -/
theorem C4_witness :
    (checkSubscriptionHealth defaultHealthConfig 700000
        [⟨"A", "1"⟩, ⟨"B", "1"⟩, ⟨"C", "1"⟩] true (fun _ => false)
        { lastBar := [("A_1", 1), ("B_1", 1), ("C_1", 1)],
          recAttempts := [("A_1", 1)],
          lastFullReconnectTime := 0 }).fullReconnectCalled = true ∧
    (checkSubscriptionHealth defaultHealthConfig 700000
        [⟨"A", "1"⟩, ⟨"B", "1"⟩, ⟨"C", "1"⟩] true (fun _ => false)
        { lastBar := [("A_1", 1), ("B_1", 1), ("C_1", 1)],
          recAttempts := [("A_1", 1)],
          lastFullReconnectTime := 0 }).state.lastFullReconnectTime = 700000 ∧
    (checkSubscriptionHealth defaultHealthConfig 700000
        [⟨"A", "1"⟩, ⟨"B", "1"⟩, ⟨"C", "1"⟩] true (fun _ => false)
        { lastBar := [("A_1", 1), ("B_1", 1), ("C_1", 1)],
          recAttempts := [("A_1", 1)],
          lastFullReconnectTime := 0 }).state.recAttempts = [] :=
  ⟨(C4_full_reconnect_cycle defaultHealthConfig 700000
      [⟨"A", "1"⟩, ⟨"B", "1"⟩, ⟨"C", "1"⟩] true (fun _ => false)
      { lastBar := [("A_1", 1), ("B_1", 1), ("C_1", 1)],
        recAttempts := [("A_1", 1)], lastFullReconnectTime := 0 }
      (by decide) (by decide) (by decide) (by decide)).1,
   (C4_full_reconnect_cycle defaultHealthConfig 700000
      [⟨"A", "1"⟩, ⟨"B", "1"⟩, ⟨"C", "1"⟩] true (fun _ => false)
      { lastBar := [("A_1", 1), ("B_1", 1), ("C_1", 1)],
        recAttempts := [("A_1", 1)], lastFullReconnectTime := 0 }
      (by decide) (by decide) (by decide) (by decide)).2.1,
   ((C4_full_reconnect_cycle defaultHealthConfig 700000
      [⟨"A", "1"⟩, ⟨"B", "1"⟩, ⟨"C", "1"⟩] true (fun _ => false)
      { lastBar := [("A_1", 1), ("B_1", 1), ("C_1", 1)],
        recAttempts := [("A_1", 1)], lastFullReconnectTime := 0 }
      (by decide) (by decide) (by decide) (by decide)).2.2.2 rfl).2⟩

/-- Counterexample to C4 as stated: same scenario but `fullReconnect` fails;
the monitor still calls it and stamps the cooldown, yet neither resets
`lastBarTimestamps` nor clears `recoveryAttempts` — the claim's unconditional
reset does not hold. -/
theorem C4_counterexample :
    (checkSubscriptionHealth defaultHealthConfig 700000
        [⟨"A", "1"⟩, ⟨"B", "1"⟩, ⟨"C", "1"⟩] false (fun _ => true)
        { lastBar := [("A_1", 1), ("B_1", 1), ("C_1", 1)],
          recAttempts := [("A_1", 1)],
          lastFullReconnectTime := 0 }).fullReconnectCalled = true ∧
    (checkSubscriptionHealth defaultHealthConfig 700000
        [⟨"A", "1"⟩, ⟨"B", "1"⟩, ⟨"C", "1"⟩] false (fun _ => true)
        { lastBar := [("A_1", 1), ("B_1", 1), ("C_1", 1)],
          recAttempts := [("A_1", 1)],
          lastFullReconnectTime := 0 }).state.recAttempts = [("A_1", 1)] ∧
    (checkSubscriptionHealth defaultHealthConfig 700000
        [⟨"A", "1"⟩, ⟨"B", "1"⟩, ⟨"C", "1"⟩] false (fun _ => true)
        { lastBar := [("A_1", 1), ("B_1", 1), ("C_1", 1)],
          recAttempts := [("A_1", 1)],
          lastFullReconnectTime := 0 }).state.lastBar =
      [("A_1", 1), ("B_1", 1), ("C_1", 1)] := by
  decide

/-- C6 (amended).  Only the `SUBSCRIPTIONS` configuration path normalizes
timeframes (`parseSubscriptions().map(normalizeTimeframe)`); the client
protocol's subscribe handler uses the request's timeframe verbatim — the key
entering `activeSubscriptions`, and the pair forwarded to the multiplexer,
carry the raw timeframe. -/
theorem C6_normalization_boundary :
    (∀ raw : List Subscription,
      (configSubscriptions raw).map Subscription.timeframe =
        raw.map (fun sub => (normalizeTimeframe sub).timeframe)) ∧
    (∀ (s : WSState) (c : Nat) (sym tf : String),
      sym ≠ "" → tf ≠ "" →
      sym ++ "_" ++ tf ∉ (s.clientSubs c).getD [] →
      s.subClients (sym ++ "_" ++ tf) = none →
      sym ++ "_" ++ tf ∈ (wsStep (WSOp.sub c sym tf) s).1.active ∧
      (wsStep (WSOp.sub c sym tf) s).2 = [WSEvent.subEv ⟨sym, tf⟩]) := by
  constructor
  · intro raw
    simp [configSubscriptions, List.map_map]
  · intro s c sym tf hs ht hnotin hnone
    have hfields : ¬(sym = "" ∨ tf = "") := by
      rintro (e | e)
      · exact hs e
      · exact ht e
    dsimp only [wsStep]
    unfold handleSubscribe
    rw [if_neg hfields, if_neg hnotin, hnone]
    exact ⟨mem_insertNew_self _ _, rfl⟩

/-- Witness for C6: the config path normalizes `"1h"` to `"60"`, while a
client subscribing with `"5m"` puts the raw key in `activeSubscriptions`. -/
theorem C6_witness :
    ((configSubscriptions [⟨"B", "1h"⟩]).map Subscription.timeframe =
      [⟨"B", "1h"⟩].map (fun sub => (normalizeTimeframe sub).timeframe)) ∧
    "BINANCE:BTCUSDT" ++ "_" ++ "5m" ∈
      (wsStep (WSOp.sub 0 "BINANCE:BTCUSDT" "5m") (wsRun [WSOp.connect 0])).1.active :=
  ⟨C6_normalization_boundary.1 [⟨"B", "1h"⟩],
   (C6_normalization_boundary.2 (wsRun [WSOp.connect 0]) 0 "BINANCE:BTCUSDT" "5m"
      (by decide) (by decide) (by decide) (by decide)).1⟩

/-- Counterexample to C6 as stated: a client protocol subscribe with
timeframe `"5m"` keys the interest index and `activeSubscriptions` with the
raw string `"..._5m"`, not the normalized `"..._5"` — internal code does see
non-normalized timeframe values. -/
theorem C6_counterexample :
    "BINANCE:BTCUSDT_5m" ∈
      (wsRun [WSOp.connect 0, WSOp.sub 0 "BINANCE:BTCUSDT" "5m"]).active ∧
    normalizeTimeframe ⟨"BINANCE:BTCUSDT", "5m"⟩ = ⟨"BINANCE:BTCUSDT", "5"⟩ ∧
    ("BINANCE:BTCUSDT_5m" : String) ≠ "BINANCE:BTCUSDT" ++ "_" ++ "5" := by
  decide

/-- Appending strings appends their character lists. -/
theorem toList_append (a b : String) : (a ++ b).toList = a.toList ++ b.toList := by
  cases a
  cases b
  rfl

/-- Rebuilding a string from its character list is the identity. -/
theorem mk_toList (s : String) : String.mk s.toList = s := by
  cases s
  rfl

/-- A list without underscores is a single split segment. -/
theorem splitChars_no_und (l : List Char) (h : '_' ∉ l) : splitChars l = [l] := by
  induction l with
  | nil => rfl
  | cons c cs ih =>
    have hc : ¬c = '_' := fun e => h (e ▸ List.mem_cons_self c cs)
    have hcs : '_' ∉ cs := fun m => h (List.mem_cons_of_mem c m)
    simp [splitChars, hc, ih hcs]

/-- Splitting at the first underscore of a list whose prefix is
underscore-free. -/
theorem splitChars_append (l1 l2 : List Char) (h : '_' ∉ l1) :
    splitChars (l1 ++ '_' :: l2) = l1 :: splitChars l2 := by
  induction l1 with
  | nil => simp [splitChars]
  | cons c cs ih =>
    have hc : ¬c = '_' := fun e => h (e ▸ List.mem_cons_self c cs)
    have hcs : '_' ∉ cs := fun m => h (List.mem_cons_of_mem c m)
    show splitChars (c :: (cs ++ '_' :: l2)) = (c :: cs) :: splitChars l2
    simp only [splitChars, if_neg hc]
    rw [ih hcs]

/-- The first split segment is the maximal underscore-free prefix. -/
theorem splitChars_head (l : List Char) :
    ∃ t, splitChars l = l.takeWhile (fun c => decide (c ≠ '_')) :: t := by
  induction l with
  | nil => exact ⟨[], rfl⟩
  | cons c cs ih =>
    by_cases hc : c = '_'
    · subst hc
      exact ⟨splitChars cs, by simp [splitChars, List.takeWhile_cons]⟩
    · obtain ⟨t, ht⟩ := ih
      refine ⟨t, ?_⟩
      simp [splitChars, hc, ht, List.takeWhile_cons]

/-- The first segment returned by the `key.split('_')` destructuring never
contains an underscore. -/
theorem splitSym_no_und (key : String) : '_' ∉ (splitSym key).toList := by
  obtain ⟨t, ht⟩ := splitChars_head key.toList
  have : splitSym key = String.mk (key.toList.takeWhile (fun c => decide (c ≠ '_'))) := by
    unfold splitSym jsSplit
    rw [ht]
    rfl
  rw [this]
  intro hm
  have := List.mem_takeWhile_imp hm
  simp at this

/-- `jsSplit` of a key built from underscore-free components recovers the
components. -/
theorem jsSplit_key (sym tf : String) (hs : '_' ∉ sym.toList)
    (ht : '_' ∉ tf.toList) : jsSplit (sym ++ "_" ++ tf) = [sym, tf] := by
  have hl : (sym ++ "_" ++ tf).toList = sym.toList ++ '_' :: tf.toList := by
    rw [toList_append, toList_append, List.append_assoc]
    rfl
  unfold jsSplit
  rw [hl, splitChars_append _ _ hs, splitChars_no_und _ ht]
  simp [mk_toList]

/-- An entry of `getSubscriptions` for every stored key: the key split at
underscores, destructured into its first two segments. -/
theorem mem_getSubscriptions (s : TVState) (key : String)
    (h : key ∈ chartKeys s) :
    (⟨splitSym key, splitTf key⟩ : Subscription) ∈ tvGetSubscriptions s := by
  simp only [chartKeys, List.mem_map] at h
  obtain ⟨p, hp, hk⟩ := h
  simp only [tvGetSubscriptions, List.mem_map]
  exact ⟨p, hp, by rw [hk]; rfl⟩

/-- Every symbol returned by `getSubscriptions` is underscore-free. -/
theorem getSubscriptions_symbols (s : TVState) (sub : Subscription)
    (h : sub ∈ tvGetSubscriptions s) : '_' ∉ sub.symbol.toList := by
  simp only [tvGetSubscriptions, List.mem_map] at h
  obtain ⟨p, _, hk⟩ := h
  have : sub.symbol = splitSym p.1 := by
    rw [← hk]
    rfl
  rw [this]
  exact splitSym_no_und p.1

/-- C10 (amended).  `getSubscriptions` round-trips a stored subscription
exactly when its symbol and timeframe are underscore-free; for a symbol
containing an underscore the returned entry's symbol is the key's prefix
before its first underscore — a strict truncation — and no returned entry
can ever carry the original symbol, so the original pair is not recovered
(the returned timeframe is the segment between the key's first and second
underscores, which may coincidentally equal the stored timeframe). -/
theorem C10_getSubscriptions_roundtrip (s : TVState) (sym tf : String) :
    ('_' ∉ sym.toList → '_' ∉ tf.toList → sym ++ "_" ++ tf ∈ chartKeys s →
      (⟨sym, tf⟩ : Subscription) ∈ tvGetSubscriptions s) ∧
    ('_' ∈ sym.toList →
      (∀ sub ∈ tvGetSubscriptions s, sub.symbol ≠ sym) ∧
      (sym ++ "_" ++ tf ∈ chartKeys s →
        (⟨splitSym (sym ++ "_" ++ tf), splitTf (sym ++ "_" ++ tf)⟩ : Subscription)
          ∈ tvGetSubscriptions s ∧
        splitSym (sym ++ "_" ++ tf) ≠ sym)) := by
  constructor
  · intro hs ht hk
    have hsp : splitSym (sym ++ "_" ++ tf) = sym := by
      simp [splitSym, jsSplit_key sym tf hs ht]
    have htp : splitTf (sym ++ "_" ++ tf) = tf := by
      simp [splitTf, jsSplit_key sym tf hs ht]
    have := mem_getSubscriptions s _ hk
    rwa [hsp, htp] at this
  · intro hu
    constructor
    · intro sub hsub he
      apply getSubscriptions_symbols s sub hsub
      rw [he]
      exact hu
    · intro hk
      refine ⟨mem_getSubscriptions s _ hk, ?_⟩
      intro he
      apply splitSym_no_und (sym ++ "_" ++ tf)
      rw [he]
      exact hu

/-- Witness for C10: a clean key round-trips; a key whose symbol contains an
underscore comes back truncated. -/
theorem C10_witness :
    (⟨"BTC", "1"⟩ : Subscription) ∈
      tvGetSubscriptions (tvRun [TVOp.connect true, TVOp.subscribe true ⟨"BTC", "1"⟩]) ∧
    splitSym ("FX_IDC:EURUSD" ++ "_" ++ "60") ≠ "FX_IDC:EURUSD" :=
  ⟨(C10_getSubscriptions_roundtrip
      (tvRun [TVOp.connect true, TVOp.subscribe true ⟨"BTC", "1"⟩]) "BTC" "1").1
      (by decide) (by decide) (by decide),
   (((C10_getSubscriptions_roundtrip
        (tvRun [TVOp.connect true, TVOp.subscribe true ⟨"FX_IDC:EURUSD", "60"⟩])
        "FX_IDC:EURUSD" "60").2 (by decide)).2 (by decide)).2⟩

/-- Counterexample to C10 as stated: for the stored pair `("A_1", "1")` the
returned entry is `("A", "1")` — the symbol is truncated but the returned
timeframe equals the subscribed one, so the clause "the returned timeframe
is wrong" does not hold of every underscore-containing symbol. -/
theorem C10_counterexample :
    tvGetSubscriptions (tvRun [TVOp.connect true, TVOp.subscribe true ⟨"A_1", "1"⟩]) =
      [⟨"A", "1"⟩] ∧
    (⟨"A", "1"⟩ : Subscription).timeframe = (⟨"A_1", "1"⟩ : Subscription).timeframe := by
  decide

/-- The character list of a rebuilt string. -/
theorem toList_mk (l : List Char) : (String.mk l).toList = l := rfl

/-- The last element of a list is a member. -/
theorem getLast?_mem {α : Type} : ∀ (l : List α) (a : α), l.getLast? = some a → a ∈ l := by
  intro l
  induction l with
  | nil => intro a h; cases h
  | cons x xs ih =>
    intro a h
    cases hx : xs with
    | nil =>
      subst hx
      simp at h
      simp [h]
    | cons y ys =>
      subst hx
      rw [List.getLast?_cons_cons] at h
      exact List.mem_cons_of_mem x (ih a h)

/-- A non-empty list has a last element. -/
theorem exists_getLast? {α : Type} : ∀ (l : List α), l ≠ [] → ∃ a, l.getLast? = some a := by
  intro l
  induction l with
  | nil => intro h; exact absurd rfl h
  | cons x xs ih =>
    intro _
    cases hx : xs with
    | nil => exact ⟨x, by subst hx; rfl⟩
    | cons y ys =>
      subst hx
      obtain ⟨a, ha⟩ := ih (by simp)
      exact ⟨a, by rw [List.getLast?_cons_cons]; exact ha⟩

/-- When a list ends in `'m'` and contains exactly one `'m'`, removing the
first occurrence coincides with dropping the last element. -/
theorem removeFirst_unique : ∀ (l : List Char), l.getLast? = some 'm' →
    l.count 'm' = 1 → removeFirstChar 'm' l = l.dropLast := by
  intro l
  induction l with
  | nil => intro h _; cases h
  | cons x xs ih =>
    intro hl hc
    cases hx : xs with
    | nil =>
      subst hx
      simp at hl
      simp [removeFirstChar, hl]
    | cons y ys =>
      subst hx
      rw [List.getLast?_cons_cons] at hl
      have hmem : 'm' ∈ y :: ys := getLast?_mem _ _ hl
      have hx' : ¬x = 'm' := by
        intro e
        subst e
        rw [List.count_cons_self] at hc
        have h0 : (y :: ys).count 'm' = 0 := by omega
        exact (List.count_eq_zero.mp h0) hmem
      have hc' : (y :: ys).count 'm' = 1 := by
        rw [List.count_cons_of_ne (fun e => hx' e.symm)] at hc
        exact hc
      rw [List.dropLast_cons₂]
      show (if x = 'm' then y :: ys else x :: removeFirstChar 'm' (y :: ys)) =
        x :: (y :: ys).dropLast
      rw [if_neg hx', ih hl hc']

/-- The digit prefix of a digit run followed by `'h'` is the run itself. -/
theorem takeWhile_digits (ds : List Char) (h : ∀ c ∈ ds, c.isDigit = true) :
    (ds ++ ['h']).takeWhile Char.isDigit = ds := by
  induction ds with
  | nil => decide
  | cons d ds ih =>
    have hd : d.isDigit = true := h d (List.mem_cons_self d ds)
    have h' : ∀ c ∈ ds, c.isDigit = true := fun c hc => h c (List.mem_cons_of_mem d hc)
    simp [List.takeWhile_cons, hd, ih h']

/-- `leadingDigits` on a digit run followed by `'h'`. -/
theorem leadingDigits_digits (ds : List Char) (hne : ds ≠ [])
    (h : ∀ c ∈ ds, c.isDigit = true) :
    leadingDigits (ds ++ ['h']) = some (digitsVal ds) := by
  unfold leadingDigits
  rw [takeWhile_digits ds h]
  cases ds with
  | nil => exact absurd rfl hne
  | cons d ds' => rfl

/-- A decimal digit is none of the characters the normalizer branches on. -/
theorem digit_ne_chars (c : Char) (h : c.isDigit = true) :
    c ≠ '-' ∧ c ≠ '+' ∧ c ≠ 'm' ∧ c ≠ 'h' := by
  refine ⟨?_, ?_, ?_, ?_⟩ <;> (intro e; subst e; exact absurd h (by decide))

/-- Reduction of `jsParseInt` on a non-empty character list. -/
theorem jsParseInt_cons (d : Char) (rest : List Char) :
    jsParseInt (String.mk (d :: rest)) =
      if d = '-' then (leadingDigits rest).map (fun n => -(n : Int))
      else if d = '+' then (leadingDigits rest).map (fun n => (n : Int))
      else (leadingDigits (d :: rest)).map (fun n => (n : Int)) := rfl

/-- `jsParseInt` on a digit run followed by `'h'` parses the run. -/
theorem jsParseInt_digits (ds : List Char) (hne : ds ≠ [])
    (h : ∀ c ∈ ds, c.isDigit = true) :
    jsParseInt (String.mk (ds ++ ['h'])) = some ((digitsVal ds : Int)) := by
  cases ds with
  | nil => exact absurd rfl hne
  | cons d ds' =>
    have hd := h d (List.mem_cons_self d ds')
    obtain ⟨h1, h2, _, _⟩ := digit_ne_chars d hd
    rw [List.cons_append, jsParseInt_cons, if_neg h1, if_neg h2,
      ← List.cons_append, leadingDigits_digits (d :: ds') (by simp) h]
    rfl

/-- `normalizeTimeframe` rewrites only the timeframe field. -/
theorem normalize_eq_normTF (sym tf : String) :
    normalizeTimeframe ⟨sym, tf⟩ = ⟨sym, normTF tf⟩ := rfl

/-- A string rebuilt from an all-digit run differs from any string holding a
non-digit character. -/
theorem mk_ne_of_nondigit (ds : List Char) (h : ∀ c ∈ ds, c.isDigit = true)
    (s : String) (c : Char) (hcs : c ∈ s.toList) (hcd : c.isDigit = false) :
    String.mk ds ≠ s := by
  intro e
  have hds : ds = s.toList := by
    have h2 := congrArg String.toList e
    rwa [toList_mk] at h2
  have h3 := h c (hds ▸ hcs)
  rw [hcd] at h3
  cases h3

/-- C7 (amended).  The normalizer: (1) on a timeframe whose only `'m'` is the
trailing one, strips it (`replace('m','')` removes the first occurrence, so
this is the trailing strip exactly when `'m'` occurs once); (2) maps a digit
run followed by `'h'` to the run's value times 60 in decimal; (3) maps
`"1d"`/`"d"` to `"D"`, `"1w"`/`"w"` to `"W"`, `"1M"`/`"M"` to `"M"` and fixes
`"D"`/`"W"`; (4) leaves all-digit timeframes unchanged. -/
theorem C7_normalize_cases :
    (∀ (sym tf : String), tf.toList.getLast? = some 'm' → tf.toList.count 'm' = 1 →
      normalizeTimeframe ⟨sym, tf⟩ = ⟨sym, String.mk tf.toList.dropLast⟩) ∧
    (∀ (sym : String) (ds : List Char), ds ≠ [] → (∀ c ∈ ds, c.isDigit = true) →
      normalizeTimeframe ⟨sym, String.mk (ds ++ ['h'])⟩ =
        ⟨sym, toString ((digitsVal ds : Int) * 60)⟩) ∧
    (∀ sym : String,
      normalizeTimeframe ⟨sym, "1d"⟩ = ⟨sym, "D"⟩ ∧
      normalizeTimeframe ⟨sym, "d"⟩ = ⟨sym, "D"⟩ ∧
      normalizeTimeframe ⟨sym, "1w"⟩ = ⟨sym, "W"⟩ ∧
      normalizeTimeframe ⟨sym, "w"⟩ = ⟨sym, "W"⟩ ∧
      normalizeTimeframe ⟨sym, "1M"⟩ = ⟨sym, "M"⟩ ∧
      normalizeTimeframe ⟨sym, "M"⟩ = ⟨sym, "M"⟩ ∧
      normalizeTimeframe ⟨sym, "D"⟩ = ⟨sym, "D"⟩ ∧
      normalizeTimeframe ⟨sym, "W"⟩ = ⟨sym, "W"⟩) ∧
    (∀ (sym : String) (ds : List Char), ds ≠ [] → (∀ c ∈ ds, c.isDigit = true) →
      normalizeTimeframe ⟨sym, String.mk ds⟩ = ⟨sym, String.mk ds⟩) := by
  refine ⟨?_, ?_, ?_, ?_⟩
  · intro sym tf hl hc
    have he : endsWithChar tf 'm' = true := by
      unfold endsWithChar
      rw [hl]
      decide
    rw [normalize_eq_normTF]
    have h2 : normTF tf = String.mk tf.toList.dropLast := by
      unfold normTF normalizeTimeframe
      simp only [he, if_true]
      exact congrArg String.mk (removeFirst_unique tf.toList hl hc)
    rw [h2]
  · intro sym ds hne h
    have hlast : (ds ++ ['h']).getLast? = some 'h' := by
      simp
    have hm : endsWithChar (String.mk (ds ++ ['h'])) 'm' = false := by
      unfold endsWithChar
      rw [toList_mk, hlast]
      decide
    have hh : endsWithChar (String.mk (ds ++ ['h'])) 'h' = true := by
      unfold endsWithChar
      rw [toList_mk, hlast]
      decide
    rw [normalize_eq_normTF]
    have h2 : normTF (String.mk (ds ++ ['h'])) = toString ((digitsVal ds : Int) * 60) := by
      unfold normTF normalizeTimeframe
      simp [hm, hh, jsParseInt_digits ds hne h]
    rw [h2]
  · intro sym
    exact ⟨(normalize_eq_normTF sym "1d").trans (congrArg (Subscription.mk sym) (by decide)),
      (normalize_eq_normTF sym "d").trans (congrArg (Subscription.mk sym) (by decide)),
      (normalize_eq_normTF sym "1w").trans (congrArg (Subscription.mk sym) (by decide)),
      (normalize_eq_normTF sym "w").trans (congrArg (Subscription.mk sym) (by decide)),
      (normalize_eq_normTF sym "1M").trans (congrArg (Subscription.mk sym) (by decide)),
      (normalize_eq_normTF sym "M").trans (congrArg (Subscription.mk sym) (by decide)),
      (normalize_eq_normTF sym "D").trans (congrArg (Subscription.mk sym) (by decide)),
      (normalize_eq_normTF sym "W").trans (congrArg (Subscription.mk sym) (by decide))⟩
  · intro sym ds hne h
    obtain ⟨c, hgl⟩ := exists_getLast? ds hne
    have hcd : c.isDigit = true := h c (getLast?_mem ds c hgl)
    obtain ⟨_, _, hcm, hch⟩ := digit_ne_chars c hcd
    have hm : endsWithChar (String.mk ds) 'm' = false := by
      unfold endsWithChar
      rw [toList_mk, hgl]
      simp [hcm]
    have hh : endsWithChar (String.mk ds) 'h' = false := by
      unfold endsWithChar
      rw [toList_mk, hgl]
      simp [hch]
    have n1 : String.mk ds ≠ "1d" := mk_ne_of_nondigit ds h _ 'd' (by decide) (by decide)
    have n2 : String.mk ds ≠ "d" := mk_ne_of_nondigit ds h _ 'd' (by decide) (by decide)
    have n3 : String.mk ds ≠ "1w" := mk_ne_of_nondigit ds h _ 'w' (by decide) (by decide)
    have n4 : String.mk ds ≠ "w" := mk_ne_of_nondigit ds h _ 'w' (by decide) (by decide)
    have n5 : String.mk ds ≠ "1M" := mk_ne_of_nondigit ds h _ 'M' (by decide) (by decide)
    have n6 : String.mk ds ≠ "M" := mk_ne_of_nondigit ds h _ 'M' (by decide) (by decide)
    rw [normalize_eq_normTF]
    have h2 : normTF (String.mk ds) = String.mk ds := by
      unfold normTF normalizeTimeframe
      simp [hm, hh, n1, n2, n3, n4, n5, n6]
    rw [h2]

/-- Witness for C7 at concrete timeframes: `"5m"`, `"4h"`, `"1d"`, `"60"`. -/
theorem C7_witness :
    normalizeTimeframe ⟨"X", "5m"⟩ = ⟨"X", String.mk "5m".toList.dropLast⟩ ∧
    normalizeTimeframe ⟨"X", String.mk (['4'] ++ ['h'])⟩ =
      ⟨"X", toString ((digitsVal ['4'] : Int) * 60)⟩ ∧
    normalizeTimeframe ⟨"X", "1d"⟩ = ⟨"X", "D"⟩ ∧
    normalizeTimeframe ⟨"X", String.mk ['6', '0']⟩ = ⟨"X", String.mk ['6', '0']⟩ :=
  ⟨C7_normalize_cases.1 "X" "5m" (by decide) (by decide),
   C7_normalize_cases.2.1 "X" ['4'] (by decide) (by decide),
   (C7_normalize_cases.2.2.1 "X").1,
   C7_normalize_cases.2.2.2 "X" ['6', '0'] (by decide) (by decide)⟩

/-- Counterexample to C7 as stated: `"m1m"` ends in `'m'`, but the code's
first-occurrence `replace` yields `"1m"`, not the trailing strip `"m1"`. -/
theorem C7_counterexample :
    normalizeTimeframe ⟨"X", "m1m"⟩ = ⟨"X", "1m"⟩ ∧
    String.mk "m1m".toList.dropLast = "m1" ∧
    ("1m" : String) ≠ "m1" := by
  decide

/-- The empty server state satisfies the tracking invariants. -/
theorem symOk_init : SymOk wsInit := by
  constructor
  · intro key l hl
    cases hl
  · intro c key
    simp [wsInit, interest]
  · intro c
    simp [wsInit]
  · intro key
    simp [wsInit, interest]

/-- The empty server state satisfies the full invariant. -/
theorem fullOk_init : FullOk wsInit := by
  refine ⟨symOk_init, ?_, ?_⟩
  · intro key
    simp [wsInit, interest]
  · simp [wsInit]

/-- `handleSubscribe` on a missing field or an already-subscribed key is a
no-op. -/
theorem handleSubscribe_noop (c : Nat) (sym tf : String) (s : WSState)
    (h : (sym = "" ∨ tf = "") ∨ sym ++ "_" ++ tf ∈ (s.clientSubs c).getD []) :
    handleSubscribe c sym tf s = (s, []) := by
  unfold handleSubscribe
  rcases h with h | h
  · rw [if_pos h]
  · by_cases h0 : sym = "" ∨ tf = ""
    · rw [if_pos h0]
    · rw [if_neg h0, if_pos h]

/-- `handleSubscribe` when the client is a first listener: both tracking maps
gain the key, the key enters `activeSubscriptions`, and a `subscribe` event
with the raw request pair is emitted. -/
theorem handleSubscribe_first (c : Nat) (sym tf : String) (s : WSState)
    (h0 : ¬(sym = "" ∨ tf = ""))
    (h1 : sym ++ "_" ++ tf ∉ (s.clientSubs c).getD [])
    (h2 : s.subClients (sym ++ "_" ++ tf) = none) :
    handleSubscribe c sym tf s =
      ({ clients := s.clients,
         active := insertNew (sym ++ "_" ++ tf) s.active,
         clientSubs := upd s.clientSubs c
           (some (insertNew (sym ++ "_" ++ tf) ((s.clientSubs c).getD []))),
         subClients := upd s.subClients (sym ++ "_" ++ tf) (some [c]) },
       [WSEvent.subEv ⟨sym, tf⟩]) := by
  unfold handleSubscribe
  rw [if_neg h0, if_neg h1, h2]

/-- `handleSubscribe` when other listeners exist: the client joins the key's
listener set, `activeSubscriptions` is untouched and nothing is emitted. -/
theorem handleSubscribe_shared (c : Nat) (sym tf : String) (s : WSState)
    (cl : List Nat) (h0 : ¬(sym = "" ∨ tf = ""))
    (h1 : sym ++ "_" ++ tf ∉ (s.clientSubs c).getD [])
    (h2 : s.subClients (sym ++ "_" ++ tf) = some cl) :
    handleSubscribe c sym tf s =
      ({ clients := s.clients,
         active := s.active,
         clientSubs := upd s.clientSubs c
           (some (insertNew (sym ++ "_" ++ tf) ((s.clientSubs c).getD []))),
         subClients := upd s.subClients (sym ++ "_" ++ tf)
           (some (insertNew c cl)) },
       []) := by
  unfold handleSubscribe
  rw [if_neg h0, if_neg h1, h2]

/-- `handleUnsubscribe` is a no-op on a missing field or a key the client is
not subscribed to. -/
theorem handleUnsubscribe_noop (c : Nat) (sym tf : String) (s : WSState)
    (h : (sym = "" ∨ tf = "") ∨ sym ++ "_" ++ tf ∉ (s.clientSubs c).getD []) :
    handleUnsubscribe c sym tf s = (s, []) := by
  unfold handleUnsubscribe
  by_cases h0 : sym = "" ∨ tf = ""
  · rw [if_pos h0]
  · rw [if_neg h0]
    have h1 : sym ++ "_" ++ tf ∉ (s.clientSubs c).getD [] := by
      rcases h with h | h
      · exact absurd h h0
      · exact h
    cases h2 : s.clientSubs c with
    | none => rfl
    | some cs =>
      rw [h2] at h1
      simp only [Option.getD_some] at h1
      dsimp only
      rw [if_neg h1]

/-- `handleUnsubscribe` for the last listener: the key leaves both tracking
maps and `activeSubscriptions`, with an `unsubscribe` event carrying the raw
request pair. -/
theorem handleUnsubscribe_last (c : Nat) (sym tf : String) (s : WSState)
    (cs : List String) (cl : List Nat) (h0 : ¬(sym = "" ∨ tf = ""))
    (hcs : s.clientSubs c = some cs) (h1 : sym ++ "_" ++ tf ∈ cs)
    (h2 : s.subClients (sym ++ "_" ++ tf) = some cl)
    (he : cl.erase c = []) :
    handleUnsubscribe c sym tf s =
      ({ clients := s.clients,
         active := s.active.erase (sym ++ "_" ++ tf),
         clientSubs := upd s.clientSubs c (some (cs.erase (sym ++ "_" ++ tf))),
         subClients := upd s.subClients (sym ++ "_" ++ tf) none },
       [WSEvent.unsubEv sym tf]) := by
  unfold handleUnsubscribe
  rw [if_neg h0, hcs]
  dsimp only
  rw [if_pos h1, h2]
  dsimp only
  rw [if_pos he]

/-- `handleUnsubscribe` with remaining listeners: the client leaves the key's
listener set; `activeSubscriptions` is untouched and nothing is emitted. -/
theorem handleUnsubscribe_keep (c : Nat) (sym tf : String) (s : WSState)
    (cs : List String) (cl : List Nat) (h0 : ¬(sym = "" ∨ tf = ""))
    (hcs : s.clientSubs c = some cs) (h1 : sym ++ "_" ++ tf ∈ cs)
    (h2 : s.subClients (sym ++ "_" ++ tf) = some cl)
    (he : ¬cl.erase c = []) :
    handleUnsubscribe c sym tf s =
      ({ clients := s.clients,
         active := s.active,
         clientSubs := upd s.clientSubs c (some (cs.erase (sym ++ "_" ++ tf))),
         subClients := upd s.subClients (sym ++ "_" ++ tf)
           (some (cl.erase c)) },
       []) := by
  unfold handleUnsubscribe
  rw [if_neg h0, hcs]
  dsimp only
  rw [if_pos h1, h2]
  dsimp only
  rw [if_neg he]

/-- `handleUnsubscribe` when the client has a set but the key has no listener
entry: only the client's own set shrinks. -/
theorem handleUnsubscribe_orphan (c : Nat) (sym tf : String) (s : WSState)
    (cs : List String) (h0 : ¬(sym = "" ∨ tf = ""))
    (hcs : s.clientSubs c = some cs) (h1 : sym ++ "_" ++ tf ∈ cs)
    (h2 : s.subClients (sym ++ "_" ++ tf) = none) :
    handleUnsubscribe c sym tf s =
      ({ clients := s.clients,
         active := s.active,
         clientSubs := upd s.clientSubs c (some (cs.erase (sym ++ "_" ++ tf))),
         subClients := s.subClients },
       []) := by
  unfold handleUnsubscribe
  rw [if_neg h0, hcs]
  dsimp only
  rw [if_pos h1, h2]

/-- `closeStepKey` on a key without a listener entry is a no-op. -/
theorem closeStepKey_none (c : Nat) (key : String) (s : WSState)
    (evs : List WSEvent) (h : s.subClients key = none) :
    closeStepKey c (s, evs) key = (s, evs) := by
  unfold closeStepKey
  rw [h]

/-- `closeStepKey` when the closing client was the last listener: entry and
`activeSubscriptions` key deleted, `unsubscribe` event with the key split at
underscores. -/
theorem closeStepKey_del (c : Nat) (key : String) (s : WSState)
    (evs : List WSEvent) (cl : List Nat) (h : s.subClients key = some cl)
    (he : cl.erase c = []) :
    closeStepKey c (s, evs) key =
      ({ clients := s.clients, active := s.active.erase key,
         clientSubs := s.clientSubs, subClients := upd s.subClients key none },
       evs ++ [WSEvent.unsubEv (splitSym key) (splitTf key)]) := by
  unfold closeStepKey
  rw [h]
  dsimp only
  rw [if_pos he]

/-- `closeStepKey` with remaining listeners: the client is removed from the
entry, nothing else changes. -/
theorem closeStepKey_keep (c : Nat) (key : String) (s : WSState)
    (evs : List WSEvent) (cl : List Nat) (h : s.subClients key = some cl)
    (he : ¬cl.erase c = []) :
    closeStepKey c (s, evs) key =
      ({ clients := s.clients, active := s.active,
         clientSubs := s.clientSubs,
         subClients := upd s.subClients key (some (cl.erase c)) },
       evs) := by
  unfold closeStepKey
  rw [h]
  dsimp only
  rw [if_neg he]

/-- A fresh connection preserves the tracking invariants. -/
theorem symOk_connection (c : Nat) (s : WSState) (h : SymOk s)
    (hf : s.clientSubs c = none) : SymOk (handleConnection c s) := by
  refine ⟨?_, ?_, ?_, ?_⟩
  · intro key l hl
    exact h.ne key l hl
  · intro c' key
    show c' ∈ interest s key ↔ key ∈ ((upd s.clientSubs c (some [])) c').getD []
    by_cases hc : c' = c
    · subst hc
      rw [upd_self]
      have h2 := h.sym c' key
      rw [hf] at h2
      simp only [Option.getD_none, List.not_mem_nil, iff_false] at h2
      simp [h2]
    · rw [upd_other _ _ _ _ hc]
      exact h.sym c' key
  · intro c'
    show (((upd s.clientSubs c (some [])) c').getD []).Nodup
    by_cases hc : c' = c
    · subst hc
      rw [upd_self]
      exact List.nodup_nil
    · rw [upd_other _ _ _ _ hc]
      exact h.ndC c'
  · intro key
    exact h.ndS key

/-- A fresh connection preserves the full invariant. -/
theorem fullOk_connection (c : Nat) (s : WSState) (h : FullOk s)
    (hf : s.clientSubs c = none) : FullOk (handleConnection c s) := by
  refine ⟨symOk_connection c s h.so hf, ?_, ?_⟩
  · intro key
    exact h.act key
  · exact h.ndA

/-- `handleSubscribe` preserves the tracking invariants. -/
theorem symOk_subscribe (c : Nat) (sym tf : String) (s : WSState)
    (h : SymOk s) : SymOk (handleSubscribe c sym tf s).1 := by
  by_cases h0 : sym = "" ∨ tf = ""
  · rw [handleSubscribe_noop c sym tf s (Or.inl h0)]
    exact h
  · by_cases h1 : sym ++ "_" ++ tf ∈ (s.clientSubs c).getD []
    · rw [handleSubscribe_noop c sym tf s (Or.inr h1)]
      exact h
    · cases h2 : s.subClients (sym ++ "_" ++ tf) with
      | none =>
        rw [handleSubscribe_first c sym tf s h0 h1 h2]
        refine ⟨?_, ?_, ?_, ?_⟩
        · intro k l hl
          dsimp only at hl
          by_cases hk : k = sym ++ "_" ++ tf
          · subst hk
            rw [upd_self] at hl
            cases hl
            simp
          · rw [upd_other _ _ _ _ hk] at hl
            exact h.ne k l hl
        · intro c' k
          simp only [interest]
          by_cases hk : k = sym ++ "_" ++ tf
          · subst hk
            rw [upd_self]
            by_cases hc : c' = c
            · subst hc
              rw [upd_self]
              simp [mem_insertNew_self]
            · rw [upd_other _ _ _ _ hc]
              have h3 := h.sym c' (sym ++ "_" ++ tf)
              simp only [interest, h2, Option.getD_none, List.not_mem_nil,
                false_iff] at h3
              simp [hc, h3]
          · rw [upd_other _ _ _ _ hk]
            by_cases hc : c' = c
            · subst hc
              rw [upd_self]
              have h3 := h.sym c' k
              simp only [interest] at h3
              rw [h3]
              simp [mem_insertNew_iff, hk]
            · rw [upd_other _ _ _ _ hc]
              exact h.sym c' k
        · intro c'
          dsimp only
          by_cases hc : c' = c
          · subst hc
            rw [upd_self]
            exact insertNew_nodup _ _ (h.ndC c')
          · rw [upd_other _ _ _ _ hc]
            exact h.ndC c'
        · intro k
          simp only [interest]
          by_cases hk : k = sym ++ "_" ++ tf
          · subst hk
            rw [upd_self]
            simp
          · rw [upd_other _ _ _ _ hk]
            exact h.ndS k
      | some cl =>
        rw [handleSubscribe_shared c sym tf s cl h0 h1 h2]
        refine ⟨?_, ?_, ?_, ?_⟩
        · intro k l hl
          dsimp only at hl
          by_cases hk : k = sym ++ "_" ++ tf
          · subst hk
            rw [upd_self] at hl
            cases hl
            exact insertNew_ne_nil _ _
          · rw [upd_other _ _ _ _ hk] at hl
            exact h.ne k l hl
        · intro c' k
          simp only [interest]
          by_cases hk : k = sym ++ "_" ++ tf
          · subst hk
            rw [upd_self]
            by_cases hc : c' = c
            · subst hc
              rw [upd_self]
              simp [mem_insertNew_self, mem_insertNew_iff]
            · rw [upd_other _ _ _ _ hc]
              have h3 := h.sym c' (sym ++ "_" ++ tf)
              simp only [interest, h2, Option.getD_some] at h3
              simp only [Option.getD_some, mem_insertNew_iff, hc,
                or_false]
              exact h3
          · rw [upd_other _ _ _ _ hk]
            by_cases hc : c' = c
            · subst hc
              rw [upd_self]
              have h3 := h.sym c' k
              simp only [interest] at h3
              rw [h3]
              simp [mem_insertNew_iff, hk]
            · rw [upd_other _ _ _ _ hc]
              exact h.sym c' k
        · intro c'
          dsimp only
          by_cases hc : c' = c
          · subst hc
            rw [upd_self]
            exact insertNew_nodup _ _ (h.ndC c')
          · rw [upd_other _ _ _ _ hc]
            exact h.ndC c'
        · intro k
          simp only [interest]
          by_cases hk : k = sym ++ "_" ++ tf
          · subst hk
            rw [upd_self]
            have h3 := h.ndS (sym ++ "_" ++ tf)
            simp only [interest, h2, Option.getD_some] at h3
            exact insertNew_nodup _ _ h3
          · rw [upd_other _ _ _ _ hk]
            exact h.ndS k

/-- `handleSubscribe` preserves the full invariant. -/
theorem fullOk_subscribe (c : Nat) (sym tf : String) (s : WSState)
    (h : FullOk s) : FullOk (handleSubscribe c sym tf s).1 := by
  refine ⟨symOk_subscribe c sym tf s h.so, ?_, ?_⟩ <;>
    (by_cases h0 : sym = "" ∨ tf = "")
  · rw [handleSubscribe_noop c sym tf s (Or.inl h0)]
    exact h.act
  · by_cases h1 : sym ++ "_" ++ tf ∈ (s.clientSubs c).getD []
    · rw [handleSubscribe_noop c sym tf s (Or.inr h1)]
      exact h.act
    · cases h2 : s.subClients (sym ++ "_" ++ tf) with
      | none =>
        rw [handleSubscribe_first c sym tf s h0 h1 h2]
        intro k
        simp only [interest]
        by_cases hk : k = sym ++ "_" ++ tf
        · subst hk
          rw [upd_self]
          simp [mem_insertNew_self]
        · rw [upd_other _ _ _ _ hk]
          have h3 := h.act k
          simp only [interest] at h3
          rw [← h3]
          simp [mem_insertNew_iff, hk]
      | some cl =>
        rw [handleSubscribe_shared c sym tf s cl h0 h1 h2]
        intro k
        simp only [interest]
        by_cases hk : k = sym ++ "_" ++ tf
        · subst hk
          rw [upd_self]
          have hcl : cl ≠ [] := h.so.ne _ cl h2
          have h3 := h.act (sym ++ "_" ++ tf)
          simp only [interest, h2, Option.getD_some] at h3
          simp only [Option.getD_some]
          constructor
          · intro _
            exact insertNew_ne_nil _ _
          · intro _
            exact h3.mpr hcl
        · rw [upd_other _ _ _ _ hk]
          exact h.act k
  · rw [handleSubscribe_noop c sym tf s (Or.inl h0)]
    exact h.ndA
  · by_cases h1 : sym ++ "_" ++ tf ∈ (s.clientSubs c).getD []
    · rw [handleSubscribe_noop c sym tf s (Or.inr h1)]
      exact h.ndA
    · cases h2 : s.subClients (sym ++ "_" ++ tf) with
      | none =>
        rw [handleSubscribe_first c sym tf s h0 h1 h2]
        exact insertNew_nodup _ _ h.ndA
      | some cl =>
        rw [handleSubscribe_shared c sym tf s cl h0 h1 h2]
        exact h.ndA

/-- `handleUnsubscribe` preserves the tracking invariants. -/
theorem symOk_unsubscribe (c : Nat) (sym tf : String) (s : WSState)
    (h : SymOk s) : SymOk (handleUnsubscribe c sym tf s).1 := by
  by_cases h0 : sym = "" ∨ tf = ""
  · rw [handleUnsubscribe_noop c sym tf s (Or.inl h0)]
    exact h
  · cases hcs : s.clientSubs c with
    | none =>
      rw [handleUnsubscribe_noop c sym tf s (Or.inr (by rw [hcs]; simp))]
      exact h
    | some cs =>
      by_cases h1 : sym ++ "_" ++ tf ∈ cs
      · cases h2 : s.subClients (sym ++ "_" ++ tf) with
        | none =>
          have h3 := h.sym c (sym ++ "_" ++ tf)
          simp only [interest, h2, hcs, Option.getD_none, Option.getD_some,
            List.not_mem_nil, false_iff] at h3
          exact absurd h1 h3
        | some cl =>
          have hcsnd : cs.Nodup := by
            have := h.ndC c
            rwa [hcs, Option.getD_some] at this
          have hclnd : cl.Nodup := by
            have := h.ndS (sym ++ "_" ++ tf)
            rwa [interest, h2, Option.getD_some] at this
          by_cases he : cl.erase c = []
          · have hcl1 : cl = [c] := by
              rcases erase_eq_nil he with h4 | h4
              · exact absurd h4 (h.ne _ cl h2)
              · exact h4
            rw [handleUnsubscribe_last c sym tf s cs cl h0 hcs h1 h2 he]
            refine ⟨?_, ?_, ?_, ?_⟩
            · intro k l hl
              dsimp only at hl
              by_cases hk : k = sym ++ "_" ++ tf
              · subst hk
                rw [upd_self] at hl
                cases hl
              · rw [upd_other _ _ _ _ hk] at hl
                exact h.ne k l hl
            · intro c' k
              simp only [interest]
              by_cases hk : k = sym ++ "_" ++ tf
              · subst hk
                rw [upd_self]
                by_cases hc : c' = c
                · subst hc
                  rw [upd_self]
                  simp [List.Nodup.mem_erase_iff hcsnd]
                · rw [upd_other _ _ _ _ hc]
                  have h3 := h.sym c' (sym ++ "_" ++ tf)
                  simp only [interest, h2, Option.getD_some, hcl1] at h3
                  simp only [Option.getD_none, List.not_mem_nil, false_iff]
                  intro h4
                  have := h3.mpr h4
                  simp at this
                  exact hc this
              · rw [upd_other _ _ _ _ hk]
                by_cases hc : c' = c
                · subst hc
                  rw [upd_self]
                  have h3 := h.sym c' k
                  rw [hcs] at h3
                  simp only [interest] at h3
                  rw [h3]
                  simp only [Option.getD_some]
                  exact (List.mem_erase_of_ne hk).symm
                · rw [upd_other _ _ _ _ hc]
                  exact h.sym c' k
            · intro c'
              dsimp only
              by_cases hc : c' = c
              · subst hc
                rw [upd_self]
                exact List.Nodup.erase _ hcsnd
              · rw [upd_other _ _ _ _ hc]
                exact h.ndC c'
            · intro k
              simp only [interest]
              by_cases hk : k = sym ++ "_" ++ tf
              · subst hk
                rw [upd_self]
                exact List.nodup_nil
              · rw [upd_other _ _ _ _ hk]
                exact h.ndS k
          · rw [handleUnsubscribe_keep c sym tf s cs cl h0 hcs h1 h2 he]
            refine ⟨?_, ?_, ?_, ?_⟩
            · intro k l hl
              dsimp only at hl
              by_cases hk : k = sym ++ "_" ++ tf
              · subst hk
                rw [upd_self] at hl
                cases hl
                exact he
              · rw [upd_other _ _ _ _ hk] at hl
                exact h.ne k l hl
            · intro c' k
              simp only [interest]
              by_cases hk : k = sym ++ "_" ++ tf
              · subst hk
                rw [upd_self]
                by_cases hc : c' = c
                · subst hc
                  rw [upd_self]
                  simp [List.Nodup.mem_erase_iff hclnd,
                    List.Nodup.mem_erase_iff hcsnd]
                · rw [upd_other _ _ _ _ hc]
                  have h3 := h.sym c' (sym ++ "_" ++ tf)
                  simp only [interest, h2, Option.getD_some] at h3
                  simp only [Option.getD_some]
                  rw [List.mem_erase_of_ne hc]
                  exact h3
              · rw [upd_other _ _ _ _ hk]
                by_cases hc : c' = c
                · subst hc
                  rw [upd_self]
                  have h3 := h.sym c' k
                  rw [hcs] at h3
                  simp only [interest] at h3
                  rw [h3]
                  simp only [Option.getD_some]
                  exact (List.mem_erase_of_ne hk).symm
                · rw [upd_other _ _ _ _ hc]
                  exact h.sym c' k
            · intro c'
              dsimp only
              by_cases hc : c' = c
              · subst hc
                rw [upd_self]
                exact List.Nodup.erase _ hcsnd
              · rw [upd_other _ _ _ _ hc]
                exact h.ndC c'
            · intro k
              simp only [interest]
              by_cases hk : k = sym ++ "_" ++ tf
              · subst hk
                rw [upd_self]
                exact List.Nodup.erase _ hclnd
              · rw [upd_other _ _ _ _ hk]
                exact h.ndS k
      · rw [handleUnsubscribe_noop c sym tf s (Or.inr (by rw [hcs]; simpa using h1))]
        exact h

/-- `handleUnsubscribe` preserves the full invariant. -/
theorem fullOk_unsubscribe (c : Nat) (sym tf : String) (s : WSState)
    (h : FullOk s) : FullOk (handleUnsubscribe c sym tf s).1 := by
  refine ⟨symOk_unsubscribe c sym tf s h.so, ?_, ?_⟩ <;>
    (by_cases h0 : sym = "" ∨ tf = "")
  · rw [handleUnsubscribe_noop c sym tf s (Or.inl h0)]
    exact h.act
  · cases hcs : s.clientSubs c with
    | none =>
      rw [handleUnsubscribe_noop c sym tf s (Or.inr (by rw [hcs]; simp))]
      exact h.act
    | some cs =>
      by_cases h1 : sym ++ "_" ++ tf ∈ cs
      · cases h2 : s.subClients (sym ++ "_" ++ tf) with
        | none =>
          have h3 := h.so.sym c (sym ++ "_" ++ tf)
          simp only [interest, h2, hcs, Option.getD_none, Option.getD_some,
            List.not_mem_nil, false_iff] at h3
          exact absurd h1 h3
        | some cl =>
          by_cases he : cl.erase c = []
          · rw [handleUnsubscribe_last c sym tf s cs cl h0 hcs h1 h2 he]
            intro k
            simp only [interest]
            by_cases hk : k = sym ++ "_" ++ tf
            · subst hk
              rw [upd_self]
              simp [List.Nodup.mem_erase_iff h.ndA]
            · rw [upd_other _ _ _ _ hk]
              have h3 := h.act k
              simp only [interest] at h3
              rw [← h3]
              exact List.mem_erase_of_ne hk
          · rw [handleUnsubscribe_keep c sym tf s cs cl h0 hcs h1 h2 he]
            intro k
            simp only [interest]
            by_cases hk : k = sym ++ "_" ++ tf
            · subst hk
              rw [upd_self]
              have hcl : cl ≠ [] := h.so.ne _ cl h2
              have h3 := h.act (sym ++ "_" ++ tf)
              simp only [interest, h2, Option.getD_some] at h3
              simp only [Option.getD_some]
              constructor
              · intro _
                exact he
              · intro _
                exact h3.mpr hcl
            · rw [upd_other _ _ _ _ hk]
              exact h.act k
      · rw [handleUnsubscribe_noop c sym tf s (Or.inr (by rw [hcs]; simpa using h1))]
        exact h.act
  · rw [handleUnsubscribe_noop c sym tf s (Or.inl h0)]
    exact h.ndA
  · cases hcs : s.clientSubs c with
    | none =>
      rw [handleUnsubscribe_noop c sym tf s (Or.inr (by rw [hcs]; simp))]
      exact h.ndA
    | some cs =>
      by_cases h1 : sym ++ "_" ++ tf ∈ cs
      · cases h2 : s.subClients (sym ++ "_" ++ tf) with
        | none =>
          have h3 := h.so.sym c (sym ++ "_" ++ tf)
          simp only [interest, h2, hcs, Option.getD_none, Option.getD_some,
            List.not_mem_nil, false_iff] at h3
          exact absurd h1 h3
        | some cl =>
          by_cases he : cl.erase c = []
          · rw [handleUnsubscribe_last c sym tf s cs cl h0 hcs h1 h2 he]
            exact List.Nodup.erase _ h.ndA
          · rw [handleUnsubscribe_keep c sym tf s cs cl h0 hcs h1 h2 he]
            exact h.ndA
      · rw [handleUnsubscribe_noop c sym tf s (Or.inr (by rw [hcs]; simpa using h1))]
        exact h.ndA

/-- The close-handler loop never touches `clientSubscriptions`. -/
theorem closeFold_clientSubs (c : Nat) : ∀ (keys : List String) (s : WSState)
    (evs : List WSEvent),
    ((keys.foldl (closeStepKey c) (s, evs)).1).clientSubs = s.clientSubs := by
  intro keys
  induction keys with
  | nil => intro s evs; rfl
  | cons k ks ih =>
    intro s evs
    rw [List.foldl_cons]
    cases h2 : s.subClients k with
    | none =>
      rw [closeStepKey_none c k s evs h2]
      exact ih s evs
    | some cl =>
      by_cases he : cl.erase c = []
      · rw [closeStepKey_del c k s evs cl h2 he]
        exact ih _ _
      · rw [closeStepKey_keep c k s evs cl h2 he]
        exact ih _ _

/-- After the close-handler loop, the closing client is interested in a key
iff it was interested before and the key was not processed. -/
theorem closeFold_interest_self (c : Nat) : ∀ (keys : List String)
    (s : WSState) (evs : List WSEvent), nodupS s → ∀ key,
    (c ∈ interest ((keys.foldl (closeStepKey c) (s, evs)).1) key ↔
      (c ∈ interest s key ∧ key ∉ keys)) := by
  intro keys
  induction keys with
  | nil =>
    intro s evs _ key
    simp
  | cons k ks ih =>
    intro s evs hnd key
    rw [List.foldl_cons]
    cases h2 : s.subClients k with
    | none =>
      rw [closeStepKey_none c k s evs h2, ih s evs hnd key]
      by_cases hk : key = k
      · subst hk
        simp [interest, h2]
      · simp [List.mem_cons, hk]
    | some cl =>
      by_cases he : cl.erase c = []
      · rw [closeStepKey_del c k s evs cl h2 he]
        have hnd1 : nodupS { clients := s.clients, active := s.active.erase k,
                             clientSubs := s.clientSubs,
                             subClients := upd s.subClients k none } := by
          intro key'
          simp only [interest]
          by_cases hkk : key' = k
          · subst hkk
            rw [upd_self]
            exact List.nodup_nil
          · rw [upd_other _ _ _ _ hkk]
            exact hnd key'
        rw [ih _ _ hnd1 key]
        simp only [interest]
        by_cases hk : key = k
        · subst hk
          rw [upd_self]
          simp [h2]
        · rw [upd_other _ _ _ _ hk]
          simp [List.mem_cons, hk]
      · rw [closeStepKey_keep c k s evs cl h2 he]
        have hclnd : cl.Nodup := by
          have := hnd k
          rwa [interest, h2, Option.getD_some] at this
        have hnd1 : nodupS { clients := s.clients, active := s.active,
                             clientSubs := s.clientSubs,
                             subClients := upd s.subClients k (some (cl.erase c)) } := by
          intro key'
          simp only [interest]
          by_cases hkk : key' = k
          · subst hkk
            rw [upd_self]
            exact List.Nodup.erase _ hclnd
          · rw [upd_other _ _ _ _ hkk]
            exact hnd key'
        rw [ih _ _ hnd1 key]
        simp only [interest]
        by_cases hk : key = k
        · subst hk
          rw [upd_self]
          simp only [Option.getD_some, h2, List.mem_cons]
          constructor
          · rintro ⟨hmem, _⟩
            exact absurd ((List.Nodup.mem_erase_iff hclnd).mp hmem).1 (by simp)
          · rintro ⟨_, hnot⟩
            exact absurd (Or.inl trivial) hnot
        · rw [upd_other _ _ _ _ hk]
          simp [List.mem_cons, hk]

/-- The close-handler loop only ever removes the closing client from
interest sets: other clients' interest is unchanged. -/
theorem closeFold_interest_other (c c' : Nat) (hcc : c' ≠ c) :
    ∀ (keys : List String) (s : WSState) (evs : List WSEvent) (key : String),
    (c' ∈ interest ((keys.foldl (closeStepKey c) (s, evs)).1) key ↔
      c' ∈ interest s key) := by
  intro keys
  induction keys with
  | nil => intro s evs key; rfl
  | cons k ks ih =>
    intro s evs key
    rw [List.foldl_cons]
    cases h2 : s.subClients k with
    | none =>
      rw [closeStepKey_none c k s evs h2]
      exact ih s evs key
    | some cl =>
      by_cases he : cl.erase c = []
      · rw [closeStepKey_del c k s evs cl h2 he, ih _ _ _]
        simp only [interest]
        by_cases hk : key = k
        · subst hk
          rw [upd_self]
          have hni : c' ∉ cl := by
            rcases erase_eq_nil he with h4 | h4 <;> subst h4
            · simp
            · simp [hcc]
          simp [h2, hni]
        · rw [upd_other _ _ _ _ hk]
      · rw [closeStepKey_keep c k s evs cl h2 he, ih _ _ _]
        simp only [interest]
        by_cases hk : key = k
        · subst hk
          rw [upd_self]
          simp only [Option.getD_some, h2]
          exact List.mem_erase_of_ne hcc
        · rw [upd_other _ _ _ _ hk]

/-- The close-handler loop preserves entry non-emptiness and interest-set
nodup. -/
theorem closeFold_ne_ndS (c : Nat) : ∀ (keys : List String) (s : WSState)
    (evs : List WSEvent), entriesNE s → nodupS s →
    entriesNE ((keys.foldl (closeStepKey c) (s, evs)).1) ∧
    nodupS ((keys.foldl (closeStepKey c) (s, evs)).1) := by
  intro keys
  induction keys with
  | nil => intro s evs h1 h2; exact ⟨h1, h2⟩
  | cons k ks ih =>
    intro s evs hne hnd
    rw [List.foldl_cons]
    cases h2 : s.subClients k with
    | none =>
      rw [closeStepKey_none c k s evs h2]
      exact ih s evs hne hnd
    | some cl =>
      by_cases he : cl.erase c = []
      · rw [closeStepKey_del c k s evs cl h2 he]
        apply ih
        · intro key l hl
          dsimp only at hl
          by_cases hk : key = k
          · subst hk
            rw [upd_self] at hl
            cases hl
          · rw [upd_other _ _ _ _ hk] at hl
            exact hne key l hl
        · intro key
          simp only [interest]
          by_cases hk : key = k
          · subst hk
            rw [upd_self]
            exact List.nodup_nil
          · rw [upd_other _ _ _ _ hk]
            exact hnd key
      · rw [closeStepKey_keep c k s evs cl h2 he]
        have hclnd : cl.Nodup := by
          have := hnd k
          rwa [interest, h2, Option.getD_some] at this
        apply ih
        · intro key l hl
          dsimp only at hl
          by_cases hk : key = k
          · subst hk
            rw [upd_self] at hl
            cases hl
            exact he
          · rw [upd_other _ _ _ _ hk] at hl
            exact hne key l hl
        · intro key
          simp only [interest]
          by_cases hk : key = k
          · subst hk
            rw [upd_self]
            exact List.Nodup.erase _ hclnd
          · rw [upd_other _ _ _ _ hk]
            exact hnd key

/-- The close-handler loop preserves I1 and the nodup of the active key
set. -/
theorem closeFold_act (c : Nat) : ∀ (keys : List String) (s : WSState)
    (evs : List WSEvent), entriesNE s → activeIff s → nodupS s →
    s.active.Nodup →
    activeIff ((keys.foldl (closeStepKey c) (s, evs)).1) ∧
    ((keys.foldl (closeStepKey c) (s, evs)).1).active.Nodup := by
  intro keys
  induction keys with
  | nil => intro s evs _ h2 _ h4; exact ⟨h2, h4⟩
  | cons k ks ih =>
    intro s evs hne hact hnd hnda
    rw [List.foldl_cons]
    cases h2 : s.subClients k with
    | none =>
      rw [closeStepKey_none c k s evs h2]
      exact ih s evs hne hact hnd hnda
    | some cl =>
      by_cases he : cl.erase c = []
      · rw [closeStepKey_del c k s evs cl h2 he]
        apply ih
        · intro key l hl
          dsimp only at hl
          by_cases hk : key = k
          · subst hk
            rw [upd_self] at hl
            cases hl
          · rw [upd_other _ _ _ _ hk] at hl
            exact hne key l hl
        · intro key
          simp only [interest]
          by_cases hk : key = k
          · subst hk
            rw [upd_self]
            simp [List.Nodup.mem_erase_iff hnda]
          · rw [upd_other _ _ _ _ hk]
            have h3 := hact key
            simp only [interest] at h3
            rw [← h3]
            exact List.mem_erase_of_ne hk
        · intro key
          simp only [interest]
          by_cases hk : key = k
          · subst hk
            rw [upd_self]
            exact List.nodup_nil
          · rw [upd_other _ _ _ _ hk]
            exact hnd key
        · exact List.Nodup.erase _ hnda
      · rw [closeStepKey_keep c k s evs cl h2 he]
        have hclnd : cl.Nodup := by
          have := hnd k
          rwa [interest, h2, Option.getD_some] at this
        apply ih
        · intro key l hl
          dsimp only at hl
          by_cases hk : key = k
          · subst hk
            rw [upd_self] at hl
            cases hl
            exact he
          · rw [upd_other _ _ _ _ hk] at hl
            exact hne key l hl
        · intro key
          simp only [interest]
          by_cases hk : key = k
          · subst hk
            rw [upd_self]
            have hcl : cl ≠ [] := hne _ cl h2
            have h3 := hact key
            simp only [interest, h2, Option.getD_some] at h3
            simp only [Option.getD_some]
            constructor
            · intro _
              exact he
            · intro _
              exact h3.mpr hcl
          · rw [upd_other _ _ _ _ hk]
            exact hact key
        · intro key
          simp only [interest]
          by_cases hk : key = k
          · subst hk
            rw [upd_self]
            exact List.Nodup.erase _ hclnd
          · rw [upd_other _ _ _ _ hk]
            exact hnd key
        · exact hnda

/-- Events already emitted survive the rest of the close-handler loop. -/
theorem closeFold_events_mono (c : Nat) : ∀ (keys : List String)
    (s : WSState) (evs : List WSEvent) (e : WSEvent), e ∈ evs →
    e ∈ (keys.foldl (closeStepKey c) (s, evs)).2 := by
  intro keys
  induction keys with
  | nil => intro s evs e he; exact he
  | cons k ks ih =>
    intro s evs e he
    rw [List.foldl_cons]
    cases h2 : s.subClients k with
    | none =>
      rw [closeStepKey_none c k s evs h2]
      exact ih s evs e he
    | some cl =>
      by_cases hee : cl.erase c = []
      · rw [closeStepKey_del c k s evs cl h2 hee]
        exact ih _ _ e (List.mem_append_left _ he)
      · rw [closeStepKey_keep c k s evs cl h2 hee]
        exact ih _ _ e he

/-- A processed key whose interest set was exactly the closing client emits
an `unsubscribe` event carrying the key split at underscores. -/
theorem closeFold_event (c : Nat) : ∀ (keys : List String) (s : WSState)
    (evs : List WSEvent) (key : String), key ∈ keys →
    s.subClients key = some [c] →
    WSEvent.unsubEv (splitSym key) (splitTf key) ∈
      (keys.foldl (closeStepKey c) (s, evs)).2 := by
  intro keys
  induction keys with
  | nil => intro s evs key hk _; cases hk
  | cons k ks ih =>
    intro s evs key hk hsc
    rw [List.foldl_cons]
    by_cases hkey : key = k
    · subst hkey
      rw [closeStepKey_del c key s evs [c] hsc (by simp)]
      exact closeFold_events_mono c ks _ _ _
        (List.mem_append_right _ (List.mem_singleton_self _))
    · have hks : key ∈ ks := by
        cases hk with
        | head => exact absurd rfl hkey
        | tail _ h => exact h
      cases h2 : s.subClients k with
      | none =>
        rw [closeStepKey_none c k s evs h2]
        exact ih s evs key hks hsc
      | some cl =>
        by_cases he : cl.erase c = []
        · rw [closeStepKey_del c k s evs cl h2 he]
          apply ih _ _ key hks
          dsimp only
          rw [upd_other _ _ _ _ hkey]
          exact hsc
        · rw [closeStepKey_keep c k s evs cl h2 he]
          apply ih _ _ key hks
          dsimp only
          rw [upd_other _ _ _ _ hkey]
          exact hsc

/-- `handleClose` for a client with no tracked subscriptions only removes it
from the client set. -/
theorem handleClose_none (c : Nat) (s : WSState) (h : s.clientSubs c = none) :
    handleClose c s =
      ({ clients := s.clients.erase c, active := s.active,
         clientSubs := s.clientSubs, subClients := s.subClients }, []) := by
  unfold handleClose
  dsimp only
  rw [h]

/-- `handleClose` for a tracked client: its keys are processed by the loop
and its `clientSubscriptions` entry is deleted. -/
theorem handleClose_some (c : Nat) (s : WSState) (keys : List String)
    (h : s.clientSubs c = some keys) :
    handleClose c s =
      ({ clients := (keys.foldl (closeStepKey c)
            ({ clients := s.clients.erase c, active := s.active,
               clientSubs := s.clientSubs, subClients := s.subClients },
             [])).1.clients,
         active := (keys.foldl (closeStepKey c)
            ({ clients := s.clients.erase c, active := s.active,
               clientSubs := s.clientSubs, subClients := s.subClients },
             [])).1.active,
         clientSubs := upd (keys.foldl (closeStepKey c)
            ({ clients := s.clients.erase c, active := s.active,
               clientSubs := s.clientSubs, subClients := s.subClients },
             [])).1.clientSubs c none,
         subClients := (keys.foldl (closeStepKey c)
            ({ clients := s.clients.erase c, active := s.active,
               clientSubs := s.clientSubs, subClients := s.subClients },
             [])).1.subClients },
       (keys.foldl (closeStepKey c)
            ({ clients := s.clients.erase c, active := s.active,
               clientSubs := s.clientSubs, subClients := s.subClients },
             [])).2) := by
  unfold handleClose
  dsimp only
  rw [h]

/-- The close handler preserves the tracking invariants. -/
theorem symOk_close (c : Nat) (s : WSState) (h : SymOk s) :
    SymOk (handleClose c s).1 := by
  cases hcs : s.clientSubs c with
  | none =>
    rw [handleClose_none c s hcs]
    exact ⟨h.ne, h.sym, h.ndC, h.ndS⟩
  | some keys =>
    rw [handleClose_some c s keys hcs]
    have h0ne : entriesNE { clients := s.clients.erase c, active := s.active,
                            clientSubs := s.clientSubs,
                            subClients := s.subClients } := h.ne
    have h0ndS : nodupS { clients := s.clients.erase c, active := s.active,
                          clientSubs := s.clientSubs,
                          subClients := s.subClients } := h.ndS
    obtain ⟨hfne, hfnds⟩ := closeFold_ne_ndS c keys _ [] h0ne h0ndS
    have hcsubs := closeFold_clientSubs c keys
      { clients := s.clients.erase c, active := s.active,
                   clientSubs := s.clientSubs, subClients := s.subClients } []
    refine ⟨?_, ?_, ?_, ?_⟩
    · intro key l hl
      dsimp only at hl
      exact hfne key l hl
    · intro c' key
      simp only [interest]
      by_cases hc : c' = c
      · subst hc
        rw [upd_self]
        simp only [Option.getD_none, List.not_mem_nil, iff_false]
        intro hmem
        have h5 := (closeFold_interest_self c' keys _ [] h0ndS key).mp hmem
        have h6 : key ∈ keys := by
          have h7 := (h.sym c' key).mp h5.1
          rw [hcs] at h7
          simpa using h7
        exact h5.2 h6
      · rw [upd_other _ _ _ _ hc]
        have h5 := closeFold_interest_other c c' hc keys
          { clients := s.clients.erase c, active := s.active,
                       clientSubs := s.clientSubs, subClients := s.subClients } [] key
        simp only [interest] at h5
        rw [hcsubs]
        exact h5.trans (h.sym c' key)
    · intro c'
      dsimp only
      by_cases hc : c' = c
      · subst hc
        rw [upd_self]
        simp
      · rw [upd_other _ _ _ _ hc, hcsubs]
        exact h.ndC c'
    · intro key
      simp only [interest]
      exact hfnds key

/-- The close handler preserves the full invariant. -/
theorem fullOk_close (c : Nat) (s : WSState) (h : FullOk s) :
    FullOk (handleClose c s).1 := by
  refine ⟨symOk_close c s h.so, ?_, ?_⟩ <;>
    (cases hcs : s.clientSubs c)
  · rw [handleClose_none c s hcs]
    exact h.act
  · rename_i keys
    rw [handleClose_some c s keys hcs]
    have h0ne : entriesNE { clients := s.clients.erase c, active := s.active,
                            clientSubs := s.clientSubs,
                            subClients := s.subClients } := h.so.ne
    have h0act : activeIff { clients := s.clients.erase c, active := s.active,
                             clientSubs := s.clientSubs,
                             subClients := s.subClients } := h.act
    have h0ndS : nodupS { clients := s.clients.erase c, active := s.active,
                          clientSubs := s.clientSubs,
                          subClients := s.subClients } := h.so.ndS
    obtain ⟨hfact, _⟩ := closeFold_act c keys _ [] h0ne h0act h0ndS h.ndA
    intro key
    simp only [interest]
    exact hfact key
  · rw [handleClose_none c s hcs]
    exact h.ndA
  · rename_i keys
    rw [handleClose_some c s keys hcs]
    have h0ne : entriesNE { clients := s.clients.erase c, active := s.active,
                            clientSubs := s.clientSubs,
                            subClients := s.subClients } := h.so.ne
    have h0act : activeIff { clients := s.clients.erase c, active := s.active,
                             clientSubs := s.clientSubs,
                             subClients := s.subClients } := h.act
    have h0ndS : nodupS { clients := s.clients.erase c, active := s.active,
                          clientSubs := s.clientSubs,
                          subClients := s.subClients } := h.so.ndS
    obtain ⟨_, hfnda⟩ := closeFold_act c keys _ [] h0ne h0act h0ndS h.ndA
    exact hfnda

/-- The bulk subscribe loop never touches the per-client maps. -/
theorem subManyFold_maps : ∀ (ps : List (String × String))
    (acc : WSState × List WSEvent),
    ((ps.foldl subManyStep acc).1.clientSubs = acc.1.clientSubs ∧
     (ps.foldl subManyStep acc).1.subClients = acc.1.subClients) := by
  intro ps
  induction ps with
  | nil => intro acc; exact ⟨rfl, rfl⟩
  | cons p ps ih =>
    intro acc
    rw [List.foldl_cons]
    have hstep : (subManyStep acc p).1.clientSubs = acc.1.clientSubs ∧
        (subManyStep acc p).1.subClients = acc.1.subClients := by
      unfold subManyStep
      by_cases h0 : p.1 = "" ∨ p.2 = ""
      · rw [if_pos h0]
        exact ⟨rfl, rfl⟩
      · rw [if_neg h0]
        dsimp only
        by_cases h1 : p.1 ++ "_" ++ p.2 ∈ acc.1.active
        · rw [if_pos h1]
          exact ⟨rfl, rfl⟩
        · rw [if_neg h1]
          exact ⟨rfl, rfl⟩
    obtain ⟨ha, hb⟩ := ih (subManyStep acc p)
    exact ⟨ha.trans hstep.1, hb.trans hstep.2⟩

/-- The bulk unsubscribe loop never touches the per-client maps. -/
theorem unsubManyFold_maps : ∀ (ps : List (String × String))
    (acc : WSState × List WSEvent),
    ((ps.foldl unsubManyStep acc).1.clientSubs = acc.1.clientSubs ∧
     (ps.foldl unsubManyStep acc).1.subClients = acc.1.subClients) := by
  intro ps
  induction ps with
  | nil => intro acc; exact ⟨rfl, rfl⟩
  | cons p ps ih =>
    intro acc
    rw [List.foldl_cons]
    have hstep : (unsubManyStep acc p).1.clientSubs = acc.1.clientSubs ∧
        (unsubManyStep acc p).1.subClients = acc.1.subClients := by
      unfold unsubManyStep
      by_cases h0 : p.1 = "" ∨ p.2 = ""
      · rw [if_pos h0]
        exact ⟨rfl, rfl⟩
      · rw [if_neg h0]
        dsimp only
        by_cases h1 : p.1 ++ "_" ++ p.2 ∈ acc.1.active
        · rw [if_pos h1]
          exact ⟨rfl, rfl⟩
        · rw [if_neg h1]
          exact ⟨rfl, rfl⟩
    obtain ⟨ha, hb⟩ := ih (unsubManyStep acc p)
    exact ⟨ha.trans hstep.1, hb.trans hstep.2⟩

/-- The tracking invariants only read the two per-client maps, so they
transfer along map equalities. -/
theorem symOk_transfer (s s' : WSState) (h : SymOk s)
    (h1 : s'.clientSubs = s.clientSubs) (h2 : s'.subClients = s.subClients) :
    SymOk s' := by
  refine ⟨?_, ?_, ?_, ?_⟩
  · intro key l hl
    rw [h2] at hl
    exact h.ne key l hl
  · intro c key
    simp only [interest, h1, h2]
    exact h.sym c key
  · intro c
    rw [h1]
    exact h.ndC c
  · intro key
    simp only [interest, h2]
    exact h.ndS key

/-- Every well-formed protocol operation — the bulk ones included —
preserves the tracking invariants. -/
theorem symOk_step (op : WSOp) (s : WSState) (h : SymOk s)
    (hwf : wfCond op s = true) : SymOk (wsStep op s).1 := by
  cases op with
  | connect c =>
    simp only [wfCond, Bool.and_eq_true, decide_eq_true_eq] at hwf
    exact symOk_connection c s h hwf.1
  | sub c sym tf => exact symOk_subscribe c sym tf s h
  | unsub c sym tf => exact symOk_unsubscribe c sym tf s h
  | subMany c pairs =>
    show SymOk (handleSubscribeMany pairs s).1
    unfold handleSubscribeMany
    by_cases hp : pairs = []
    · rw [if_pos hp]
      exact h
    · rw [if_neg hp]
      exact symOk_transfer s _ h (subManyFold_maps pairs (s, [])).1
        (subManyFold_maps pairs (s, [])).2
  | unsubMany c pairs =>
    show SymOk (handleUnsubscribeMany pairs s).1
    unfold handleUnsubscribeMany
    by_cases hp : pairs = []
    · rw [if_pos hp]
      exact h
    · rw [if_neg hp]
      exact symOk_transfer s _ h (unsubManyFold_maps pairs (s, [])).1
        (unsubManyFold_maps pairs (s, [])).2
  | close c => exact symOk_close c s h

/-- Every well-formed non-bulk protocol operation preserves the full
invariant. -/
theorem fullOk_step (op : WSOp) (s : WSState) (h : FullOk s)
    (hwf : wfCond op s = true) (hnb : isBulk op = false) :
    FullOk (wsStep op s).1 := by
  cases op with
  | connect c =>
    simp only [wfCond, Bool.and_eq_true, decide_eq_true_eq] at hwf
    exact fullOk_connection c s h hwf.1
  | sub c sym tf => exact fullOk_subscribe c sym tf s h
  | unsub c sym tf => exact fullOk_unsubscribe c sym tf s h
  | subMany c pairs => cases hnb
  | unsubMany c pairs => cases hnb
  | close c => exact fullOk_close c s h

/-- The tracking invariants hold after any well-formed run. -/
theorem run_symOk : ∀ (ops : List WSOp) (s : WSState), SymOk s →
    wsWF s ops = true →
    SymOk (ops.foldl (fun st op => (wsStep op st).1) s) := by
  intro ops
  induction ops with
  | nil => intro s h _; exact h
  | cons op ops ih =>
    intro s h hwf
    rw [List.foldl_cons]
    have hsplit : wfCond op s = true ∧ wsWF (wsStep op s).1 ops = true := by
      have he : wsWF s (op :: ops) =
          (wfCond op s && wsWF (wsStep op s).1 ops) := rfl
      rw [he, Bool.and_eq_true] at hwf
      exact hwf
    exact ih _ (symOk_step op s h hsplit.1) hsplit.2

/-- The full invariant holds after any well-formed run without bulk
operations. -/
theorem run_fullOk : ∀ (ops : List WSOp) (s : WSState), FullOk s →
    wsWF s ops = true → (∀ op ∈ ops, isBulk op = false) →
    FullOk (ops.foldl (fun st op => (wsStep op st).1) s) := by
  intro ops
  induction ops with
  | nil => intro s h _ _; exact h
  | cons op ops ih =>
    intro s h hwf hnb
    rw [List.foldl_cons]
    have hsplit : wfCond op s = true ∧ wsWF (wsStep op s).1 ops = true := by
      have he : wsWF s (op :: ops) =
          (wfCond op s && wsWF (wsStep op s).1 ops) := rfl
      rw [he, Bool.and_eq_true] at hwf
      exact hwf
    exact ih _ (fullOk_step op s h hsplit.1 (hnb op (List.mem_cons_self op ops)))
      hsplit.2 (fun o ho => hnb o (List.mem_cons_of_mem op ho))

/-- The first split segment of an underscore-free-component key is the
symbol. -/
theorem splitSym_key (sym tf : String) (hs : '_' ∉ sym.toList)
    (ht : '_' ∉ tf.toList) : splitSym (sym ++ "_" ++ tf) = sym := by
  simp [splitSym, jsSplit_key sym tf hs ht]

/-- The second split segment of an underscore-free-component key is the
timeframe. -/
theorem splitTf_key (sym tf : String) (hs : '_' ∉ sym.toList)
    (ht : '_' ∉ tf.toList) : splitTf (sym ++ "_" ++ tf) = tf := by
  simp [splitTf, jsSplit_key sym tf hs ht]

/-- C3 (amended).  Invariant I1 holds after every well-formed sequence of
single `subscribe`, single `unsubscribe`, connect and client-disconnect
operations: a key has an `activeSubscriptions` entry (an upstream
subscription) iff its interest set is non-empty.  The pinned disjunct is
vacuous because the programmatic pin API (`addSubscription`) is never
invoked in this codebase; the bulk `subscribe_many`/`unsubscribe_many`
handlers are excluded because they bypass the per-client index and break
the invariant. -/
theorem C3_interest_invariant (ops : List WSOp)
    (hwf : wsWF wsInit ops = true)
    (hnb : ∀ op ∈ ops, isBulk op = false) :
    ∀ key, key ∈ (wsRun ops).active ↔ interest (wsRun ops) key ≠ [] :=
  (run_fullOk ops wsInit fullOk_init hwf hnb).act

/-- Witness for C3 on the run connect–subscribe, checked at the created key
and at an absent key. -/
theorem C3_witness :
    wsWF wsInit [WSOp.connect 0, WSOp.sub 0 "A" "1"] = true ∧
    (∀ op ∈ [WSOp.connect 0, WSOp.sub 0 "A" "1"], isBulk op = false) ∧
    ("A_1" ∈ (wsRun [WSOp.connect 0, WSOp.sub 0 "A" "1"]).active ↔
      interest (wsRun [WSOp.connect 0, WSOp.sub 0 "A" "1"]) "A_1" ≠ []) ∧
    ("B_1" ∈ (wsRun [WSOp.connect 0, WSOp.sub 0 "A" "1"]).active ↔
      interest (wsRun [WSOp.connect 0, WSOp.sub 0 "A" "1"]) "B_1" ≠ []) :=
  ⟨by decide, by decide,
   C3_interest_invariant [WSOp.connect 0, WSOp.sub 0 "A" "1"]
     (by decide) (by decide) "A_1",
   C3_interest_invariant [WSOp.connect 0, WSOp.sub 0 "A" "1"]
     (by decide) (by decide) "B_1"⟩

/-- Counterexample to C3 as stated: after a well-formed run ending in a
`subscribe_many`, the key `A_1` has an upstream subscription entry while its
interest set is empty and nothing was pinned — I1 fails for runs containing
the bulk operations. -/
theorem C3_counterexample :
    wsWF wsInit [WSOp.connect 0, WSOp.subMany 0 [("A", "1")]] = true ∧
    "A_1" ∈ (wsRun [WSOp.connect 0, WSOp.subMany 0 [("A", "1")]]).active ∧
    interest (wsRun [WSOp.connect 0, WSOp.subMany 0 [("A", "1")]]) "A_1" = [] := by
  decide

/-- C8 (amended).  After a client's socket closes, the client appears in no
interest set; for every key whose interest set was exactly that client, an
`unsubscribe` event is emitted towards the multiplexer carrying the key
split at its underscores — which equals the original `(symbol, timeframe)`
exactly when both components are underscore-free. -/
theorem C8_disconnect_cleanup (ops : List WSOp) (c : Nat)
    (hwf : wsWF wsInit ops = true) :
    (∀ key, c ∉ interest (handleClose c (wsRun ops)).1 key) ∧
    (∀ sym tf : String,
      (wsRun ops).subClients (sym ++ "_" ++ tf) = some [c] →
      WSEvent.unsubEv (splitSym (sym ++ "_" ++ tf)) (splitTf (sym ++ "_" ++ tf)) ∈
        (handleClose c (wsRun ops)).2 ∧
      ('_' ∉ sym.toList → '_' ∉ tf.toList →
        WSEvent.unsubEv sym tf ∈ (handleClose c (wsRun ops)).2)) := by
  have hs : SymOk (wsRun ops) := run_symOk ops wsInit symOk_init hwf
  constructor
  · intro key
    cases hcs : (wsRun ops).clientSubs c with
    | none =>
      rw [handleClose_none c (wsRun ops) hcs]
      intro hmem
      have h7 := (hs.sym c key).mp hmem
      rw [hcs] at h7
      simp at h7
    | some keys =>
      rw [handleClose_some c (wsRun ops) keys hcs]
      simp only [interest]
      intro hmem
      have h5 := (closeFold_interest_self c keys
        { clients := (wsRun ops).clients.erase c, active := (wsRun ops).active,
                     clientSubs := (wsRun ops).clientSubs,
                     subClients := (wsRun ops).subClients } [] hs.ndS key).mp hmem
      have h6 : key ∈ keys := by
        have h7 := (hs.sym c key).mp h5.1
        rw [hcs] at h7
        simpa using h7
      exact h5.2 h6
  · intro sym tf hkey
    have hmem : c ∈ interest (wsRun ops) (sym ++ "_" ++ tf) := by
      simp [interest, hkey]
    have hin := (hs.sym c (sym ++ "_" ++ tf)).mp hmem
    cases hcs : (wsRun ops).clientSubs c with
    | none =>
      rw [hcs] at hin
      simp at hin
    | some keys =>
      rw [hcs] at hin
      simp only [Option.getD_some] at hin
      rw [handleClose_some c (wsRun ops) keys hcs]
      have hev := closeFold_event c keys
        { clients := (wsRun ops).clients.erase c, active := (wsRun ops).active,
                     clientSubs := (wsRun ops).clientSubs,
                     subClients := (wsRun ops).subClients } []
        (sym ++ "_" ++ tf) hin hkey
      refine ⟨hev, ?_⟩
      intro hsu htu
      rw [splitSym_key sym tf hsu htu, splitTf_key sym tf hsu htu] at hev
      exact hev

/-- Witness for C8: client 0 subscribed alone to `BTC/1`, then its socket
closes. -/
theorem C8_witness :
    wsWF wsInit [WSOp.connect 0, WSOp.sub 0 "BTC" "1"] = true ∧
    (0 ∉ interest
      (handleClose 0 (wsRun [WSOp.connect 0, WSOp.sub 0 "BTC" "1"])).1 "BTC_1") ∧
    WSEvent.unsubEv "BTC" "1" ∈
      (handleClose 0 (wsRun [WSOp.connect 0, WSOp.sub 0 "BTC" "1"])).2 :=
  ⟨by decide,
   (C8_disconnect_cleanup [WSOp.connect 0, WSOp.sub 0 "BTC" "1"] 0 (by decide)).1
     "BTC_1",
   ((C8_disconnect_cleanup [WSOp.connect 0, WSOp.sub 0 "BTC" "1"] 0 (by decide)).2
     "BTC" "1" (by decide)).2 (by decide) (by decide)⟩

/-- Counterexample to C8 as stated: for the key `FX_IDC:EURUSD/1` the close
handler emits `unsubscribe` for `("FX", "IDC:EURUSD")` — the key split at
its first underscores — and feeding that pair to the multiplexer fails and
leaves the chart for `FX_IDC:EURUSD_1` in place: the key is not torn down
upstream. -/
theorem C8_counterexample :
    (handleClose 0 (wsRun [WSOp.connect 0, WSOp.sub 0 "FX_IDC:EURUSD" "1"])).2 =
      [WSEvent.unsubEv "FX" "IDC:EURUSD"] ∧
    (tvUnsubscribe true "FX" "IDC:EURUSD"
        (tvRun [TVOp.connect true, TVOp.subscribe true ⟨"FX_IDC:EURUSD", "1"⟩])).1 =
      false ∧
    ("FX_IDC:EURUSD" ++ "_" ++ "1") ∈ chartKeys
      ((tvUnsubscribe true "FX" "IDC:EURUSD"
        (tvRun [TVOp.connect true, TVOp.subscribe true ⟨"FX_IDC:EURUSD", "1"⟩])).2.1) := by
  decide

/-- C5.  The retry budget of `pushBar` evaluates to 3, not 4: with the
`retry` configuration absent (as it is everywhere in this codebase) the
JavaScript expression `1 + attempts || 3` is `(1 + undefined) || 3 = 3`.
An always-failing sink gets exactly 3 POSTs; a sink failing twice then
succeeding gets exactly 3 POSTs and one `bars_pushed_total` increment. -/
theorem C5_push_retry_eval :
    jsMaxAttempts cfgRetryAttempts = 3 ∧
    pushPosts (fun _ => false) = (3, false) ∧
    pushPosts (fun n => decide (2 ≤ n)) = (3, true) ∧
    jsMaxAttempts cfgRetryAttempts ≠ 1 + 3 := by
  decide
